import Mathlib

/-!
Verification development for the MaaLogAnalyzer core: a shallow embedding of
the task/node reconstruction algorithm (`LogParser`, src/unnamed/part_002) and
of the statistics aggregator (`NodeStatisticsAnalyzer`, src/unnamed/part_000),
together with proofs of the frozen behavioural claims.

Modelling conventions
- JavaScript numbers that hold millisecond epoch times or ids are modelled as
  `Int`; counters as `Nat`; values that mix division (averages, rates) as `ℚ`.
- `new Date(s).getTime()` is abstracted as an arbitrary function
  `dateMs : String → Int`; theorems quantify over it, concrete instances use
  `msOfDigits` (timestamps written as decimal milliseconds).
- JavaScript truthiness is modelled explicitly: a missing field is `none`,
  a falsy number is `0`, a falsy string is `""` (helpers `intTruthy`,
  `jsOrInt`, `jsStr`, `jsOr2Str`, `endTimeFalsy`).
- `Map` objects are modelled as insertion-ordered association lists, `Set`
  objects as first-occurrence lists; `Array.prototype.sort` as insertion sort
  over the lexicographic order on the character data (`strLe`), matching the
  default JS comparator on BMP strings.
- The string interning pool (`stringPool.ts` is not part of src/) is modelled
  from the spec; opaque detail blobs are carried verbatim as small records of
  the fields the parser reads.
-/

/-- Lexicographic comparison of character lists by code point; this is the
default JavaScript string comparison used by `Array.prototype.sort`. -/
def lexLeb : List Char → List Char → Bool
  | [], _ => true
  | _ :: _, [] => false
  | a :: as, b :: bs =>
    if a.toNat < b.toNat then true
    else if b.toNat < a.toNat then false
    else lexLeb as bs

/-- Order on strings used to model the default JS sort comparator. -/
def strLe (a b : String) : Prop := lexLeb a.data b.data = true

instance : DecidableRel strLe := fun a b => by unfold strLe; infer_instance

/-- JS truthiness of an optional number: `undefined`, `NaN` and `0` are falsy. -/
def intTruthy : Option Int → Option Int
  | some k => if k = 0 then none else some k
  | none => none

/-- JS `a || b` on optional numbers (`a` falsy when absent or `0`). -/
def jsOrInt (a b : Option Int) : Option Int :=
  match intTruthy a with
  | some k => some k
  | none => b

/-- JS `a || ''` on an optional string: the empty string is its own fallback,
so this coincides with `getD ""`. -/
def jsStr (a : Option String) : String := a.getD ""

/-- JS `a || b || ''` on optional strings (the empty string is falsy). -/
def jsOr2Str (a b : Option String) : String :=
  match a with
  | some s => if s = "" then jsStr b else s
  | none => jsStr b

/-- JS `String.prototype.trim` (whitespace restricted to the characters that
occur in these logs). -/
def jsTrim (s : String) : String :=
  ⟨(((s.data.dropWhile fun c => c = ' ' ∨ c = '\t' ∨ c = '\n' ∨ c = '\r').reverse.dropWhile
      fun c => c = ' ' ∨ c = '\t' ∨ c = '\n' ∨ c = '\r').reverse)⟩

/-- First-binding lookup in an insertion-ordered association list (JS
`Map.prototype.get`; keys are unique by construction). -/
def assocGet [DecidableEq κ] (k : κ) : List (κ × α) → Option α
  | [] => none
  | kv :: rest => if kv.1 = k then some kv.2 else assocGet k rest

/-- Remove a binding (JS `Map.prototype.delete`; keys are unique by
construction). -/
def assocDelete [DecidableEq κ] (k : κ) : List (κ × α) → List (κ × α)
  | [] => []
  | kv :: rest => if kv.1 = k then rest else kv :: assocDelete k rest

/-- JS `if (!m.has(k)) m.set(k, []); m.get(k).push(v)`: append `v` to the list
bound to `k`, creating the binding at the end of the map if absent. -/
def assocPush [DecidableEq κ] (k : κ) (v : α) : List (κ × List α) → List (κ × List α)
  | [] => [(k, [v])]
  | kv :: rest => if kv.1 = k then (kv.1, kv.2 ++ [v]) :: rest else kv :: assocPush k v rest

/-- One concrete timestamp semantics used for concrete runs: the timestamp
string is the number of milliseconds written in decimal. -/
def msOfDigits (s : String) : Int :=
  s.data.foldl (fun acc c => acc * 10 + (Int.ofNat c.toNat - 48)) 0

namespace MaaLog

/-- Task lifecycle status (types.ts is not part of src/; the shape is fixed by
its uses in logParser.ts and nodeStatistics.ts and by spec §3). -/
inductive TaskStatus where
  | running
  | succeeded
  | failed
deriving DecidableEq, Repr

/-- Completion status of a node / recognition attempt / action. -/
inductive RunStatus where
  | success
  | failed
deriving DecidableEq, Repr

/-- Modelled from the spec: opaque recognition detail blob; the parser only
reads its `reco_id` field. -/
structure RecoDetails where
  reco_id : Option Int := none
deriving DecidableEq, Repr

/-- Modelled from the spec: opaque action detail blob; the parser only reads
its `action_id` field. -/
structure ActionDetails where
  action_id : Option Int := none
deriving DecidableEq, Repr

/-- Modelled from the spec: opaque node detail blob; the parser only reads its
`name` field. -/
structure NodeDetails where
  name : Option String := none
deriving DecidableEq, Repr

/-- One entry of a `Node.NextList.Starting` event's `details.list`. -/
structure NextItemRaw where
  name : Option String := none
  anchor : Option Bool := none
  jump_back : Option Bool := none
deriving DecidableEq, Repr

/-- The `details` mapping of an event notification, restricted to the fields
the parser reads. Absent fields are `none`. -/
structure Details where
  task_id : Option Int := none
  uuid : Option String := none
  entry : Option String := none
  hash : Option String := none
  node_id : Option Int := none
  name : Option String := none
  reco_id : Option Int := none
  action_id : Option Int := none
  reco_details : Option RecoDetails := none
  action_details : Option ActionDetails := none
  node_details : Option NodeDetails := none
  focus : Option Unit := none
  list : Option (List NextItemRaw) := none
deriving DecidableEq, Repr

/-- EventNotification (types.ts is not part of src/; shape fixed by its uses). -/
structure EventNotification where
  timestamp : String
  level : String := ""
  message : String
  details : Details := {}
  lineNo : Nat := 0
deriving DecidableEq, Repr

/-- A recognition record: a RecognitionAttempt of the current task, the
lighter per-child-task attempt record, or a completed nested recognition
sub-task summary all share this shape (spec §3); `nested_nodes` is `none`
exactly when the source leaves the field `undefined`. -/
inductive RecAttempt where
  | mk (reco_id : Option Int) (name : String) (timestamp : String) (status : RunStatus)
      (reco_details : Option RecoDetails) (nested_nodes : Option (List RecAttempt))

/-- A nested action record (spec §3 ActionNode). -/
inductive ActionRec where
  | mk (action_id : Option Int) (name : String) (timestamp : String) (status : RunStatus)
      (action_details : Option ActionDetails) (nested_actions : Option (List ActionRec))

def RecAttempt.name : RecAttempt → String
  | .mk _ n _ _ _ _ => n

def RecAttempt.tstamp : RecAttempt → String
  | .mk _ _ ts _ _ _ => ts

def ActionRec.name : ActionRec → String
  | .mk _ n _ _ _ _ => n

/-- One mapped entry of a node's `next_list`. -/
structure NextItem where
  name : String
  anchor : Bool
  jump_back : Bool
deriving DecidableEq, Repr

/-- NodeInfo (types.ts is not part of src/; shape fixed by its uses). -/
structure NodeInfo where
  node_id : Int
  name : String
  timestamp : String
  status : RunStatus
  task_id : Int
  reco_details : Option RecoDetails := none
  action_details : Option ActionDetails := none
  focus : Option Unit := none
  next_list : List NextItem := []
  recognition_attempts : List RecAttempt := []
  nested_action_nodes : Option (List ActionRec) := none
  nested_recognition_in_action : Option (List RecAttempt) := none
  node_details : Option NodeDetails := none

/-- TaskInfo (types.ts is not part of src/; shape fixed by its uses).
`startEventIndex`/`endEventIndex` model `_startEventIndex`/`_endEventIndex`. -/
structure TaskInfo where
  task_id : Int
  entry : String
  hash : String
  uuid : String
  start_time : String
  status : TaskStatus
  nodes : List NodeInfo := []
  duration : Option Int := none
  end_time : Option String := none
  startEventIndex : Option Nat := none
  endEventIndex : Option Nat := none

/-- Modelled from the spec: `stringPool.ts` is not part of src/. Spec §4.3/§9:
the pool deduplicates equal string content and hands out a shared instance;
observationally on string content it is the identity. -/
def StringPool.intern (s : String) : String := s

end MaaLog

namespace MaaLog
namespace NodeStatisticsAnalyzer

/-- Aggregated per-node-name timing row (nodeStatistics.ts `NodeStatistics`).
Average and rate are exact rationals standing for the JS float results. -/
structure NodeStatistics where
  name : String
  count : Nat
  totalDuration : Int
  avgDuration : ℚ
  minDuration : Int
  maxDuration : Int
  successCount : Nat
  failCount : Nat
  successRate : ℚ
  durations : List Int
deriving DecidableEq, Repr

/-- The per-name accumulator held in `statsMap` while `analyze` scans. -/
structure StatsAcc where
  durations : List Int := []
  successCount : Nat := 0
  failCount : Nat := 0
deriving DecidableEq, Repr

/-- Push one kept duration and bump the matching success/fail counter. -/
def bumpStats (dur : Int) (status : RunStatus) (a : StatsAcc) : StatsAcc :=
  { a with
    durations := a.durations ++ [dur]
    successCount := if status = .success then a.successCount + 1 else a.successCount
    failCount := if status = .success then a.failCount else a.failCount + 1 }

/-- JS `if (!statsMap.has(name)) statsMap.set(name, empty); …mutate…`:
update the (unique) binding in place, or append a fresh mutated one. -/
def recordNode (nodeName : String) (dur : Int) (status : RunStatus) :
    List (String × StatsAcc) → List (String × StatsAcc)
  | [] => [(nodeName, bumpStats dur status {})]
  | kv :: rest =>
    if kv.1 = nodeName then (kv.1, bumpStats dur status kv.2) :: rest
    else kv :: recordNode nodeName dur status rest

/-- The outlier filter and recording step of `analyze` for one node with its
already-computed duration. -/
def analyzeStep (n : NodeInfo) (dur : Int) (m : List (String × StatsAcc)) :
    List (String × StatsAcc) :=
  if dur < 0 ∨ dur > 3600000 then m else recordNode n.name dur n.status m

/-- The indexed node loop of `analyze` over one task: duration is the next
node's timestamp minus this one's, or (for the last node) the task end time
minus this one's if `task.end_time` is truthy; otherwise the node is skipped. -/
def analyzeTaskFold (dateMs : String → Int) (endT : Option String) :
    List NodeInfo → List (String × StatsAcc) → List (String × StatsAcc)
  | [], m => m
  | [n], m =>
    match endT with
    | some e => if e = "" then m else analyzeStep n (dateMs e - dateMs n.timestamp) m
    | none => m
  | n :: n2 :: rest, m =>
    analyzeTaskFold dateMs endT (n2 :: rest)
      (analyzeStep n (dateMs n2.timestamp - dateMs n.timestamp) m)

/-- Turn one `statsMap` entry into a result row (`count === 0` entries are
skipped, as in the source). -/
def finalizeRow (kv : String × StatsAcc) : Option NodeStatistics :=
  match kv.2.durations with
  | [] => none
  | d :: ds =>
    let count := (d :: ds).length
    let total := (d :: ds).foldl (fun s x => s + x) 0
    some
      { name := kv.1
        count := count
        totalDuration := total
        avgDuration := (total : ℚ) / (count : ℚ)
        minDuration := ds.foldl min d
        maxDuration := ds.foldl max d
        successCount := kv.2.successCount
        failCount := kv.2.failCount
        successRate :=
          ((kv.2.successCount : ℚ) / ((kv.2.successCount : ℚ) + (kv.2.failCount : ℚ))) * 100
        durations := d :: ds }

/-- `NodeStatisticsAnalyzer.analyze`: per-node timing statistics pooled by
node name, sorted by average duration descending. -/
def analyze (dateMs : String → Int) (tasks : List TaskInfo) : List NodeStatistics :=
  let m := tasks.foldl (fun m t => analyzeTaskFold dateMs t.end_time t.nodes m) []
  let result := m.filterMap finalizeRow
  List.insertionSort (fun a b => b.avgDuration ≤ a.avgDuration) result

/-- Aggregated per-node-name recognition/action phase row
(nodeStatistics.ts `RecognitionActionStatistics`). -/
structure RecognitionActionStatistics where
  name : String
  count : Nat
  avgRecognitionDuration : ℚ
  minRecognitionDuration : Int
  maxRecognitionDuration : Int
  totalRecognitionDuration : Int
  recognitionCount : Nat
  avgActionDuration : ℚ
  minActionDuration : Int
  maxActionDuration : Int
  totalActionDuration : Int
  actionCount : Nat
  avgRecognitionAttempts : ℚ
  totalRecognitionAttempts : Nat
  successCount : Nat
  failCount : Nat
  successRate : ℚ
deriving DecidableEq, Repr

/-- The per-name accumulator of `analyzeRecognitionAction`. -/
structure RAAcc where
  recognitionDurations : List Int := []
  actionDurations : List Int := []
  recognitionAttempts : List Nat := []
  successCount : Nat := 0
  failCount : Nat := 0
deriving DecidableEq, Repr

/-- Last element of a list presented as head and tail (JS
`attempts[attempts.length - 1]` on a nonempty array). -/
def lastD (x : α) (xs : List α) : α := xs.foldl (fun _ y => y) x

/-- The mutations `analyzeRecognitionAction` applies to the accumulator of a
node that has at least one recognition attempt. -/
def raBump (dateMs : String → Int) (n : NodeInfo) (a : RAAcc) : RAAcc :=
  let attempts := n.recognition_attempts
  let a := { a with recognitionAttempts := a.recognitionAttempts ++ [attempts.length] }
  let a :=
    match attempts with
    | [] => a
    | first :: rest =>
      let firstTime := dateMs first.tstamp
      let lastTime := dateMs (lastD first rest).tstamp
      let recognitionDuration := lastTime - firstTime
      let a :=
        if attempts.length > 1 ∧ 0 ≤ recognitionDuration ∧ recognitionDuration < 3600000 then
          { a with recognitionDurations := a.recognitionDurations ++ [recognitionDuration] }
        else a
      let nodeCompleteTime := dateMs n.timestamp
      let actionDuration := nodeCompleteTime - lastTime
      if 0 ≤ actionDuration ∧ actionDuration < 3600000 then
        { a with actionDurations := a.actionDurations ++ [actionDuration] }
      else a
  { a with
    successCount := if n.status = .success then a.successCount + 1 else a.successCount
    failCount := if n.status = .success then a.failCount else a.failCount + 1 }

/-- Update-or-append into the `analyzeRecognitionAction` stats map. -/
def recordRA (nodeName : String) (f : RAAcc → RAAcc) :
    List (String × RAAcc) → List (String × RAAcc)
  | [] => [(nodeName, f {})]
  | kv :: rest =>
    if kv.1 = nodeName then (kv.1, f kv.2) :: rest
    else kv :: recordRA nodeName f rest

/-- Per-node step of `analyzeRecognitionAction` (nodes with no recognition
attempts are skipped). -/
def raStep (dateMs : String → Int) (m : List (String × RAAcc)) (n : NodeInfo) :
    List (String × RAAcc) :=
  if n.recognition_attempts.isEmpty then m else recordRA n.name (raBump dateMs n) m

/-- Turn one accumulator entry into a result row (`count === 0` entries are
skipped, as in the source). -/
def finalizeRA (kv : String × RAAcc) : Option RecognitionActionStatistics :=
  let count := kv.2.successCount + kv.2.failCount
  if count = 0 then none
  else
    let recognitionDurations := kv.2.recognitionDurations
    let recognitionCount := recognitionDurations.length
    let totalRecognitionDuration : Int := recognitionDurations.foldl (fun s x => s + x) 0
    let actionDurations := kv.2.actionDurations
    let actionCount := actionDurations.length
    let totalActionDuration : Int := actionDurations.foldl (fun s x => s + x) 0
    let totalRecognitionAttempts : Nat := kv.2.recognitionAttempts.foldl (fun s x => s + x) 0
    some
      { name := kv.1
        count := count
        avgRecognitionDuration :=
          if recognitionCount > 0 then (totalRecognitionDuration : ℚ) / (recognitionCount : ℚ)
          else 0
        minRecognitionDuration :=
          match recognitionDurations with
          | [] => 0
          | d :: ds => ds.foldl min d
        maxRecognitionDuration :=
          match recognitionDurations with
          | [] => 0
          | d :: ds => ds.foldl max d
        totalRecognitionDuration := totalRecognitionDuration
        recognitionCount := recognitionCount
        avgActionDuration :=
          if actionCount > 0 then (totalActionDuration : ℚ) / (actionCount : ℚ) else 0
        minActionDuration :=
          match actionDurations with
          | [] => 0
          | d :: ds => ds.foldl min d
        maxActionDuration :=
          match actionDurations with
          | [] => 0
          | d :: ds => ds.foldl max d
        totalActionDuration := totalActionDuration
        actionCount := actionCount
        avgRecognitionAttempts :=
          (totalRecognitionAttempts : ℚ) / (kv.2.recognitionAttempts.length : ℚ)
        totalRecognitionAttempts := totalRecognitionAttempts
        successCount := kv.2.successCount
        failCount := kv.2.failCount
        successRate := ((kv.2.successCount : ℚ) / (count : ℚ)) * 100 }

/-- `NodeStatisticsAnalyzer.analyzeRecognitionAction`: recognition/action
phase statistics pooled by node name, sorted by average action duration
descending. -/
def analyzeRecognitionAction (dateMs : String → Int) (tasks : List TaskInfo) :
    List RecognitionActionStatistics :=
  let m := tasks.foldl (fun m t => t.nodes.foldl (raStep dateMs) m) []
  let result := m.filterMap finalizeRA
  List.insertionSort (fun a b => b.avgActionDuration ≤ a.avgActionDuration) result

end NodeStatisticsAnalyzer
end MaaLog

namespace MaaLog
namespace LogParser

/-- JS `!t.end_time`: a task counts as still open when its end time is absent
or the empty string. -/
def endTimeFalsy (t : TaskInfo) : Bool :=
  match t.end_time with
  | none => true
  | some s => s = ""

/-- Mutate the first list element satisfying `p` (JS `Array.prototype.find`
followed by in-place mutation of the found object). -/
def updateFirst (p : α → Bool) (f : α → α) : List α → List α
  | [] => []
  | x :: xs => if p x then f x :: xs else x :: updateFirst p f xs

/-- The template string ``${taskId}`` for an optional number: an absent value
prints as "undefined". -/
def idString : Option Int → String
  | some k => toString k
  | none => "undefined"

/-- The dedup key `${uuid}_${taskId}` computed for a `Tasker.Task.Starting`
event. -/
def taskKeyOf (d : Details) : String := jsStr d.uuid ++ "_" ++ idString d.task_id

/-- The key a created task contributes: its stored uuid and task_id. -/
def keyOfTask (t : TaskInfo) : String := t.uuid ++ "_" ++ toString t.task_id

/-- State of the first pass of `getTasks`: the task list under construction
and the key set of `taskMap` (whose values are the created tasks). -/
structure Pass1State where
  tasks : List TaskInfo := []
  taskKeys : List String := []

/-- Close a matched task: set status, end time, end-event index and duration
(duration only when both interned time strings are truthy). -/
def closeTask (dateMs : String → Int) (e : EventNotification) (i : Nat) (t : TaskInfo) :
    TaskInfo :=
  let t :=
    { t with
      status := if e.message = "Tasker.Task.Succeeded" then .succeeded else .failed
      end_time := some (StringPool.intern e.timestamp)
      endEventIndex := some i }
  if t.start_time ≠ "" ∧ e.timestamp ≠ "" then
    { t with duration := some (dateMs e.timestamp - dateMs t.start_time) }
  else t

/-- One event of the first pass of `getTasks` (task discovery / matching),
at event index `i`. -/
def pass1Step (dateMs : String → Int) (st : Pass1State) (i : Nat) (e : EventNotification) :
    Pass1State :=
  if e.message = "Tasker.Task.Starting" then
    if (intTruthy e.details.task_id).isSome ∧
        taskKeyOf e.details ∉ st.taskKeys then
      { tasks :=
          st.tasks ++
            [{ task_id := e.details.task_id.getD 0
               entry := StringPool.intern (jsStr e.details.entry)
               hash := StringPool.intern (jsStr e.details.hash)
               uuid := StringPool.intern (jsStr e.details.uuid)
               start_time := StringPool.intern e.timestamp
               status := .running
               nodes := []
               duration := none
               startEventIndex := some i }]
        taskKeys := st.taskKeys ++ [taskKeyOf e.details] }
    else st
  else if e.message = "Tasker.Task.Succeeded" ∨ e.message = "Tasker.Task.Failed" then
    let isMatch : TaskInfo → Bool :=
      match e.details.uuid with
      | some u =>
        if u ≠ "" ∧ jsTrim u ≠ "" then fun t => t.uuid = u ∧ endTimeFalsy t
        else fun t => some t.task_id = e.details.task_id ∧ endTimeFalsy t
      | none => fun t => some t.task_id = e.details.task_id ∧ endTimeFalsy t
    { st with tasks := updateFirst isMatch (closeTask dateMs e i) st.tasks }
  else st

/-- The full first pass over the indexed event sequence. -/
def pass1 (dateMs : String → Int) (events : List EventNotification) : Pass1State :=
  events.enum.foldl (fun st ie => pass1Step dateMs st ie.1 ie.2) {}

/-- Scratch state of `getTaskNodes` while scanning one task's event slice. -/
structure NodesState where
  nodes : List NodeInfo := []
  nodeIdSet : List Int := []
  recognitionAttempts : List RecAttempt := []
  nestedNodes : List RecAttempt := []
  nestedActionNodes : List ActionRec := []
  currentNextList : List NextItemRaw := []
  recognitionsByTaskId : List (Option Int × List RecAttempt) := []
  actionsByTaskId : List (Option Int × List ActionRec) := []

/-- The `Node.RecognitionNode.Succeeded|Failed` block for a child task id:
build a nested recognition summary and clear the child's entry. -/
def recoNodeBlock (st : NodesState) (e : EventNotification) : NodesState :=
  let d := e.details
  let nestedRecognitions := (assocGet d.task_id st.recognitionsByTaskId).getD []
  let nested : RecAttempt :=
    .mk (jsOrInt (d.reco_details.bind RecoDetails.reco_id) d.node_id)
      (StringPool.intern (jsStr d.name)) (StringPool.intern e.timestamp)
      (if e.message = "Node.RecognitionNode.Succeeded" then .success else .failed)
      d.reco_details
      (if nestedRecognitions.length > 0 then some nestedRecognitions else none)
  { st with
    nestedNodes := st.nestedNodes ++ [nested]
    recognitionsByTaskId := assocDelete d.task_id st.recognitionsByTaskId }

/-- The `Node.ActionNode.Succeeded|Failed` block for a child task id. -/
def actionNodeBlock (st : NodesState) (e : EventNotification) : NodesState :=
  let d := e.details
  let nestedActions := (assocGet d.task_id st.actionsByTaskId).getD []
  let nested : ActionRec :=
    .mk (jsOrInt (d.action_details.bind ActionDetails.action_id) d.node_id)
      (StringPool.intern (jsStr d.name)) (StringPool.intern e.timestamp)
      (if e.message = "Node.ActionNode.Succeeded" then .success else .failed)
      d.action_details
      (if nestedActions.length > 0 then some nestedActions else none)
  { st with
    nestedActionNodes := st.nestedActionNodes ++ [nested]
    actionsByTaskId := assocDelete d.task_id st.actionsByTaskId }

/-- The `Node.Recognition.Succeeded|Failed` block: an attempt of the current
task carries the pending nested nodes; a child task's attempt is stored in
`recognitionsByTaskId`. -/
def recognitionBlock (task : TaskInfo) (st : NodesState) (e : EventNotification) :
    NodesState :=
  let d := e.details
  let status : RunStatus := if e.message = "Node.Recognition.Succeeded" then .success else .failed
  if d.task_id = some task.task_id then
    let attempt : RecAttempt :=
      .mk d.reco_id (StringPool.intern (jsStr d.name)) (StringPool.intern e.timestamp) status
        d.reco_details (if st.nestedNodes.length > 0 then some st.nestedNodes else none)
    { st with
      recognitionAttempts := st.recognitionAttempts ++ [attempt]
      nestedNodes := [] }
  else
    let attempt : RecAttempt :=
      .mk d.reco_id (StringPool.intern (jsStr d.name)) (StringPool.intern e.timestamp) status
        d.reco_details none
    { st with recognitionsByTaskId := assocPush d.task_id attempt st.recognitionsByTaskId }

/-- The `Node.Action.Succeeded|Failed` block: only child-task events are
stored. -/
def actionBlock (task : TaskInfo) (st : NodesState) (e : EventNotification) : NodesState :=
  let d := e.details
  if d.task_id ≠ some task.task_id then
    let attempt : ActionRec :=
      .mk d.action_id (StringPool.intern (jsStr d.name)) (StringPool.intern e.timestamp)
        (if e.message = "Node.Action.Succeeded" then .success else .failed)
        d.action_details none
    { st with actionsByTaskId := assocPush d.task_id attempt st.actionsByTaskId }
  else st

/-- The `Node.PipelineNode.Succeeded|Failed` block for the current task:
materialize the node unless its truthy node_id was already seen, then reset
the per-node scratch state. -/
def pipelineBlock (task : TaskInfo) (st : NodesState) (e : EventNotification) : NodesState :=
  let d := e.details
  let st1 :=
    if (intTruthy d.node_id).isSome ∧ d.node_id.getD 0 ∉ st.nodeIdSet then
        let node : NodeInfo :=
          { node_id := d.node_id.getD 0
            name := StringPool.intern (jsOr2Str (d.node_details.bind NodeDetails.name) d.name)
            timestamp := StringPool.intern e.timestamp
            status := if e.message = "Node.PipelineNode.Succeeded" then .success else .failed
            task_id := task.task_id
            reco_details := d.reco_details
            action_details := d.action_details
            focus := d.focus
            next_list :=
              st.currentNextList.map fun (item : NextItemRaw) =>
                { name := StringPool.intern (jsStr item.name)
                  anchor := item.anchor.getD false
                  jump_back := item.jump_back.getD false }
            recognition_attempts := st.recognitionAttempts
            nested_action_nodes :=
              if st.nestedActionNodes.length > 0 then some st.nestedActionNodes else none
            nested_recognition_in_action :=
              if st.nestedNodes.length > 0 then some st.nestedNodes else none
            node_details := d.node_details }
        { st with
            nodes := st.nodes ++ [node]
            nodeIdSet := st.nodeIdSet ++ [d.node_id.getD 0] }
    else st
  { st1 with
    currentNextList := []
    recognitionAttempts := []
    nestedActionNodes := []
    nestedNodes := [] }

/-- One event of the `getTaskNodes` scan. The source tests the message against
each block with independent `if` statements; the message constants are
pairwise distinct, so at most one block fires and an `if … else if` chain is
equivalent. -/
def nodesStep (task : TaskInfo) (st : NodesState) (e : EventNotification) : NodesState :=
  if e.message = "Node.NextList.Starting" ∨ e.message = "Node.NextList.Succeeded" then
    if e.details.task_id = some task.task_id ∧ e.message = "Node.NextList.Starting" then
      { st with currentNextList := e.details.list.getD [] }
    else st
  else if e.message = "Node.RecognitionNode.Succeeded" ∨
      e.message = "Node.RecognitionNode.Failed" then
    if e.details.task_id ≠ some task.task_id then recoNodeBlock st e else st
  else if e.message = "Node.ActionNode.Succeeded" ∨ e.message = "Node.ActionNode.Failed" then
    if e.details.task_id ≠ some task.task_id then actionNodeBlock st e else st
  else if e.message = "Node.Recognition.Succeeded" ∨ e.message = "Node.Recognition.Failed" then
    recognitionBlock task st e
  else if e.message = "Node.Action.Succeeded" ∨ e.message = "Node.Action.Failed" then
    actionBlock task st e
  else if e.message = "Node.PipelineNode.Succeeded" ∨
      e.message = "Node.PipelineNode.Failed" then
    if e.details.task_id = some task.task_id then pipelineBlock task st e else st
  else st

/-- `LogParser.getTaskNodes`: reconstruct one task's nodes from the slice of
the event buffer between its recorded start and end indices. -/
def getTaskNodes (events : List EventNotification) (task : TaskInfo) : List NodeInfo :=
  match task.startEventIndex with
  | none => []
  | some si =>
    let takeCount :=
      match task.endEventIndex with
      | some j => j + 1
      | none => events.length
    let taskEvents := (events.take takeCount).drop si
    (taskEvents.foldl (nodesStep task) {}).nodes

/-- The second pass of `getTasks`: attach nodes to each task and give running
tasks with nodes an approximate duration up to the last node's timestamp. -/
def pass2Task (dateMs : String → Int) (events : List EventNotification) (t : TaskInfo) :
    TaskInfo :=
  let ns := getTaskNodes events t
  let t := { t with nodes := ns }
  if t.status = .running ∧ ns.length > 0 then
    match ns.getLast? with
    | some lastNode => { t with duration := some (dateMs lastNode.timestamp - dateMs t.start_time) }
    | none => t
  else t

/-- `LogParser.getTasks` as a function of the event buffer: two passes, then
the post-stop sentinel tasks are filtered out. -/
def getTasksList (dateMs : String → Int) (events : List EventNotification) : List TaskInfo :=
  let st := pass1 dateMs events
  let tasks := st.tasks.map (pass2Task dateMs events)
  tasks.filter fun t => t.entry ≠ "MaaTaskerPostStop"

/-- A decoded log line that contains the `!!!OnEventNotify!!!` marker, as it
reaches `parseEventNotification`: its process/thread ids and the already
extracted `msg` / `details` params (absent params are `none`). -/
structure NotifyLine where
  timestamp : String
  level : String := ""
  processId : String
  threadId : String
  msg : Option String := none
  details : Option Details := none
  lineNo : Nat := 0

/-- Parser instance state (the fields of the `LogParser` class). -/
structure ParserState where
  events : List EventNotification := []
  processIds : List String := []
  threadIds : List String := []
  taskProcessMap : List (Int × String) := []
  taskThreadMap : List (Int × String) := []

/-- JS `Set.prototype.add` on a first-occurrence-ordered list. -/
def addUnique (l : List String) (x : String) : List String :=
  if x ∈ l then l else l ++ [x]

/-- The event built by `parseEventNotification` (`details || {}`). -/
def mkEvent (l : NotifyLine) (m : String) (d : Option Details) : EventNotification :=
  { timestamp := l.timestamp
    level := l.level
    message := m
    details := d.getD {}
    lineNo := l.lineNo }

/-- Processing of one marker line during `parseFile`: `parseLine` registers
the process/thread id of every decoded line, then `parseEventNotification`
records the first process/thread owner of a truthy `task_id` on a
`Tasker.Task.Starting` event and yields the event. A `Tasker.Task.Starting`
line whose `details` param is absent throws on `details.task_id` in the
source; the exception is caught in `parseFile`, so the line contributes no
event and no recording. -/
def noteLine (st : ParserState) (l : NotifyLine) : ParserState :=
  let st :=
    { st with
      processIds := addUnique st.processIds l.processId
      threadIds := addUnique st.threadIds l.threadId }
  match l.msg with
  | none => st
  | some m =>
    if m = "Tasker.Task.Starting" then
      match l.details with
      | none => st
      | some d =>
        let st :=
          if (intTruthy d.task_id).isSome ∧
              (assocGet (d.task_id.getD 0) st.taskProcessMap).isNone then
            { st with
              taskProcessMap := st.taskProcessMap ++ [(d.task_id.getD 0, l.processId)]
              taskThreadMap := st.taskThreadMap ++ [(d.task_id.getD 0, l.threadId)] }
          else st
        { st with events := st.events ++ [mkEvent l m (some d)] }
    else { st with events := st.events ++ [mkEvent l m l.details] }

/-- `LogParser.parseFile` restricted to its observable state: the id sets and
owner maps are cleared, the marker lines are scanned in order and the event
buffer is replaced by the freshly extracted events. Chunking and progress
reporting do not affect this state. -/
def parseF (lines : List NotifyLine) (s : ParserState := {}) : ParserState :=
  let s :=
    { s with
      events := []
      processIds := []
      threadIds := []
      taskProcessMap := []
      taskThreadMap := [] }
  lines.foldl noteLine s

/-- `LogParser.getEvents`. -/
def getEvents (s : ParserState) : List EventNotification := s.events

/-- `LogParser.getTasks` as a state transformer: the reconstruction result
together with the successor state, whose event buffer has been released. -/
def getTasksState (dateMs : String → Int) (s : ParserState) :
    List TaskInfo × ParserState :=
  (getTasksList dateMs s.events, { s with events := [] })

/-- First-occurrence deduplication (JS `new Set(xs)` iterated in insertion
order). -/
def dedupFirst (l : List String) : List String := l.foldl addUnique []

/-- `LogParser.getProcessIds`: the distinct process ids recorded in
`taskProcessMap`, sorted. -/
def getProcessIds (s : ParserState) : List String :=
  List.insertionSort strLe (dedupFirst (s.taskProcessMap.map Prod.snd))

/-- `LogParser.getThreadIds`. -/
def getThreadIds (s : ParserState) : List String :=
  List.insertionSort strLe (dedupFirst (s.taskThreadMap.map Prod.snd))

/-- `LogParser.getTaskProcessId`. -/
def getTaskProcessId (s : ParserState) (taskId : Int) : Option String :=
  assocGet taskId s.taskProcessMap

/-- `LogParser.getTaskThreadId`. -/
def getTaskThreadId (s : ParserState) (taskId : Int) : Option String :=
  assocGet taskId s.taskThreadMap

end LogParser
end MaaLog

namespace MaaLog

namespace NodeStatisticsAnalyzer

/-- Invariant of the `analyze` stats map: every accumulator balances its
success/fail counters against its duration list, and only durations that
passed the outlier filter are stored. -/
def StatsInv (m : List (String × StatsAcc)) : Prop :=
  ∀ kv ∈ m, kv.2.successCount + kv.2.failCount = kv.2.durations.length ∧
    ∀ d ∈ kv.2.durations, 0 ≤ d ∧ d ≤ 3600000

/-- Invariant of the `analyzeRecognitionAction` stats map: every accumulator
has been touched at least once, so its success/fail denominator is positive. -/
def RAInv (m : List (String × RAAcc)) : Prop :=
  ∀ kv ∈ m, 1 ≤ kv.2.successCount + kv.2.failCount

end NodeStatisticsAnalyzer

namespace LogParser

/-- Invariant of the first pass of `getTasks`: the keys of the created tasks
are pairwise distinct and recorded in `taskKeys`, and every created task has a
nonzero task_id. -/
def Pass1Inv (st : Pass1State) : Prop :=
  (st.tasks.map keyOfTask).Nodup ∧
    (∀ k ∈ st.tasks.map keyOfTask, k ∈ st.taskKeys) ∧
    ∀ t ∈ st.tasks, t.task_id ≠ 0

/-- Invariant of the `getTaskNodes` scan: materialized node ids are pairwise
distinct, tracked in `nodeIdSet`, and nonzero. -/
def NodesInv (st : NodesState) : Prop :=
  (st.nodes.map NodeInfo.node_id).Nodup ∧
    ∀ i ∈ st.nodes.map NodeInfo.node_id, i ∈ st.nodeIdSet ∧ i ≠ 0

/-- Recording condition of the owner maps: a `Tasker.Task.Starting` marker
line whose `details` param carries exactly the truthy task_id `k`. -/
def isStartingFor (k : Int) (l : NotifyLine) : Bool :=
  decide (l.msg = some "Tasker.Task.Starting") &&
    match l.details with
    | some d => decide (d.task_id = some k)
    | none => false

end LogParser

section ConcreteInputs

open NodeStatisticsAnalyzer LogParser

/-- Concrete node for the C1 counterexample run. -/
def c1node : NodeInfo :=
  { node_id := 10, name := "A", timestamp := "0", status := .success, task_id := 1 }

/-- Concrete task whose single node gets duration exactly 3600000 ms (task end
time minus node timestamp). -/
def c1task : TaskInfo :=
  { task_id := 1, entry := "E", hash := "", uuid := "", start_time := "0",
    status := .succeeded, nodes := [c1node], end_time := some "3600000",
    startEventIndex := some 0 }

/-- The first row of the C1 concrete run. -/
def c1row : NodeStatistics :=
  (NodeStatisticsAnalyzer.analyze msOfDigits [c1task]).get ⟨0, by decide⟩

/-- A recognition attempt used by the C7 concrete forest. -/
def c7attempt : RecAttempt := .mk (some 1) "R" "1" .success none none

/-- Concrete node with a recognition attempt, so that both aggregation passes
emit a row. -/
def c7node : NodeInfo :=
  { node_id := 11, name := "A", timestamp := "5", status := .success, task_id := 1,
    recognition_attempts := [c7attempt] }

/-- Concrete forest for the C7 witness. -/
def c7task : TaskInfo :=
  { task_id := 1, entry := "E", hash := "", uuid := "", start_time := "0",
    status := .succeeded, nodes := [c7node], end_time := some "9",
    startEventIndex := some 0 }

/-- The first row of each aggregation pass on the C7 concrete forest. -/
def c7rowA : NodeStatistics :=
  (NodeStatisticsAnalyzer.analyze msOfDigits [c7task]).get ⟨0, by decide⟩

def c7rowB : RecognitionActionStatistics :=
  (NodeStatisticsAnalyzer.analyzeRecognitionAction msOfDigits [c7task]).get ⟨0, by decide⟩

/-- Events of the C2 scenario: two `Tasker.Task.Starting` with empty uuid and
task_id 5, then two `Tasker.Task.Succeeded` with task_id 5. -/
def c2e1 : EventNotification :=
  { timestamp := "1", message := "Tasker.Task.Starting",
    details := { task_id := some 5, uuid := some "" } }

def c2e2 : EventNotification :=
  { timestamp := "2", message := "Tasker.Task.Starting",
    details := { task_id := some 5, uuid := some "" } }

def c2e3 : EventNotification :=
  { timestamp := "3", message := "Tasker.Task.Succeeded",
    details := { task_id := some 5 } }

def c2e4 : EventNotification :=
  { timestamp := "4", message := "Tasker.Task.Succeeded",
    details := { task_id := some 5 } }

/-- Events of the C3 round-trip scenario. -/
def c3e1 : EventNotification :=
  { timestamp := "1", message := "Tasker.Task.Starting",
    details := { task_id := some 1, uuid := some "a" } }

def c3e2 : EventNotification :=
  { timestamp := "2", message := "Node.PipelineNode.Succeeded",
    details := { task_id := some 1, node_id := some 10, name := some "X" } }

def c3e3 : EventNotification :=
  { timestamp := "3", message := "Tasker.Task.Succeeded",
    details := { task_id := some 1, uuid := some "a" } }

/-- Marker line for the C4 counterexample: a started task whose entry is the
post-stop sentinel, so it is filtered out of `getTasks`. -/
def c4line : NotifyLine :=
  { timestamp := "1", processId := "p", threadId := "t",
    msg := some "Tasker.Task.Starting",
    details := some { task_id := some 1, entry := some "MaaTaskerPostStop" } }

/-- Marker line for the C4 witness: an ordinary started task. -/
def c4wline : NotifyLine :=
  { timestamp := "1", processId := "p2", threadId := "t2",
    msg := some "Tasker.Task.Starting",
    details := some { task_id := some 4, entry := some "Main" } }

/-- The first process and thread id returned on the C4 witness input. -/
def c4pid : String :=
  (LogParser.getProcessIds (LogParser.parseF [c4wline])).get ⟨0, by decide⟩

def c4tid : String :=
  (LogParser.getThreadIds (LogParser.parseF [c4wline])).get ⟨0, by decide⟩

/-- Concrete first-pass state for the C5 witness: the key "a_1" is already
taken. -/
def c5state : Pass1State := { tasks := [], taskKeys := ["a_1"] }

/-- A `Tasker.Task.Starting` event whose key "a_1" collides with `c5state`. -/
def c5e : EventNotification :=
  { timestamp := "9", message := "Tasker.Task.Starting",
    details := { task_id := some 1, uuid := some "a" } }

/-- Marker line for the C6 counterexample: `task_id` present but equal to 0,
which is falsy, so the owner maps record nothing. -/
def c6line0 : NotifyLine :=
  { timestamp := "1", processId := "p", threadId := "t",
    msg := some "Tasker.Task.Starting", details := some { task_id := some 0 } }

/-- Marker line for the C6 witness: an ordinary nonzero task_id. -/
def c6line1 : NotifyLine :=
  { timestamp := "1", processId := "p1", threadId := "t1",
    msg := some "Tasker.Task.Starting", details := some { task_id := some 1 } }

/-- Events and reconstructed task for the C8 witness. -/
def c8e1 : EventNotification :=
  { timestamp := "1", message := "Tasker.Task.Starting",
    details := { task_id := some 2, uuid := some "b" } }

def c8e2 : EventNotification :=
  { timestamp := "2", message := "Node.PipelineNode.Succeeded",
    details := { task_id := some 2, node_id := some 7, name := some "Y" } }

def c8e3 : EventNotification :=
  { timestamp := "3", message := "Tasker.Task.Succeeded",
    details := { task_id := some 2, uuid := some "b" } }

def c8task : TaskInfo :=
  (LogParser.getTasksList msOfDigits [c8e1, c8e2, c8e3]).get ⟨0, by decide⟩

/-- Events and reconstructed task for the C10 witness. -/
def c10e1 : EventNotification :=
  { timestamp := "1", message := "Tasker.Task.Starting",
    details := { task_id := some 3, uuid := some "c" } }

def c10e2 : EventNotification :=
  { timestamp := "2", message := "Node.PipelineNode.Succeeded",
    details := { task_id := some 3, node_id := some 9, name := some "Z" } }

def c10e3 : EventNotification :=
  { timestamp := "3", message := "Tasker.Task.Succeeded",
    details := { task_id := some 3, uuid := some "c" } }

def c10task : TaskInfo :=
  (LogParser.getTasksList msOfDigits [c10e1, c10e2, c10e3]).get ⟨0, by decide⟩

end ConcreteInputs

end MaaLog
namespace MaaLog
namespace NodeStatisticsAnalyzer

theorem bumpStats_ok {a : StatsAcc} {dur : Int} {status : RunStatus}
    (h₁ : a.successCount + a.failCount = a.durations.length)
    (h₂ : ∀ d ∈ a.durations, 0 ≤ d ∧ d ≤ 3600000)
    (hd₀ : 0 ≤ dur) (hd₁ : dur ≤ 3600000) :
    (bumpStats dur status a).successCount + (bumpStats dur status a).failCount =
        (bumpStats dur status a).durations.length ∧
      ∀ d ∈ (bumpStats dur status a).durations, 0 ≤ d ∧ d ≤ 3600000 := by
  constructor
  · cases status <;> simp [bumpStats] <;> omega
  · intro d hd
    simp [bumpStats] at hd
    rcases hd with hd | hd
    · exact h₂ d hd
    · exact hd ▸ ⟨hd₀, hd₁⟩

theorem statsInv_recordNode {m : List (String × StatsAcc)} {nodeName : String} {dur : Int}
    {status : RunStatus} (h : StatsInv m) (hd₀ : 0 ≤ dur) (hd₁ : dur ≤ 3600000) :
    StatsInv (recordNode nodeName dur status m) := by
  induction m with
  | nil =>
    intro kv hkv
    simp [recordNode] at hkv
    subst hkv
    exact bumpStats_ok (by simp) (by simp) hd₀ hd₁
  | cons kv₀ rest ih =>
    have hhead := h kv₀ (by simp)
    have htail : StatsInv rest := fun kv hkv => h kv (by simp [hkv])
    intro kv hkv
    simp only [recordNode] at hkv
    by_cases he : kv₀.1 = nodeName
    · rw [if_pos he] at hkv
      rcases List.mem_cons.mp hkv with hkv | hkv
      · subst hkv
        exact bumpStats_ok hhead.1 hhead.2 hd₀ hd₁
      · exact htail kv hkv
    · rw [if_neg he] at hkv
      rcases List.mem_cons.mp hkv with hkv | hkv
      · exact hkv ▸ hhead
      · exact ih htail kv hkv

theorem statsInv_analyzeStep {m : List (String × StatsAcc)} {n : NodeInfo} {dur : Int}
    (h : StatsInv m) : StatsInv (analyzeStep n dur m) := by
  unfold analyzeStep
  split
  · exact h
  · next hout =>
    push_neg at hout
    exact statsInv_recordNode h hout.1 (le_of_not_lt fun hc => absurd hc (not_lt.mpr hout.2))

theorem statsInv_analyzeTaskFold (dateMs : String → Int) (endT : Option String) :
    ∀ (nodes : List NodeInfo) (m : List (String × StatsAcc)),
      StatsInv m → StatsInv (analyzeTaskFold dateMs endT nodes m) := by
  intro nodes
  induction nodes with
  | nil => intro m h; exact h
  | cons n rest ih =>
    intro m h
    cases rest with
    | nil =>
      cases endT with
      | none => exact h
      | some e =>
        simp only [analyzeTaskFold]
        split
        · exact h
        · exact statsInv_analyzeStep h
    | cons n2 rest2 =>
      exact ih _ (statsInv_analyzeStep h)

theorem statsInv_analyzeMap (dateMs : String → Int) (tasks : List TaskInfo) :
    StatsInv (tasks.foldl (fun m t => analyzeTaskFold dateMs t.end_time t.nodes m) []) := by
  suffices hgen : ∀ (ts : List TaskInfo) (m : List (String × StatsAcc)), StatsInv m →
      StatsInv (ts.foldl (fun m t => analyzeTaskFold dateMs t.end_time t.nodes m) m) by
    exact hgen tasks [] (by intro kv hkv; simp at hkv)
  intro ts
  induction ts with
  | nil => intro m h; exact h
  | cons t rest ih =>
    intro m h
    exact ih _ (statsInv_analyzeTaskFold dateMs t.end_time t.nodes m h)

theorem finalizeRow_props {kv : String × StatsAcc} {row : NodeStatistics}
    (hfin : finalizeRow kv = some row) :
    row.durations = kv.2.durations ∧
      row.count = kv.2.durations.length ∧
      row.successCount = kv.2.successCount ∧
      row.failCount = kv.2.failCount ∧
      row.totalDuration = kv.2.durations.foldl (fun s x => s + x) 0 ∧
      row.successRate =
        ((kv.2.successCount : ℚ) / ((kv.2.successCount : ℚ) + (kv.2.failCount : ℚ))) * 100 ∧
      kv.2.durations ≠ [] := by
  unfold finalizeRow at hfin
  cases hdur : kv.2.durations with
  | nil => rw [hdur] at hfin; exact absurd hfin (by simp)
  | cons d ds =>
    rw [hdur] at hfin
    simp only [Option.some.injEq] at hfin
    subst hfin
    refine ⟨rfl, by simp, rfl, rfl, rfl, rfl, by simp⟩

/-- Every row of `analyze` comes from a stats-map entry. -/
theorem mem_analyze {dateMs : String → Int} {tasks : List TaskInfo} {row : NodeStatistics}
    (h : row ∈ analyze dateMs tasks) :
    ∃ kv ∈ tasks.foldl (fun m t => analyzeTaskFold dateMs t.end_time t.nodes m) [],
      finalizeRow kv = some row := by
  unfold analyze at h
  rw [List.mem_insertionSort] at h
  exact List.mem_filterMap.mp h

end NodeStatisticsAnalyzer
end MaaLog

namespace MaaLog
namespace NodeStatisticsAnalyzer

theorem raBump_counts (dateMs : String → Int) (n : NodeInfo) (a : RAAcc) :
    (raBump dateMs n a).successCount + (raBump dateMs n a).failCount =
      a.successCount + a.failCount + 1 := by
  unfold raBump
  cases n.recognition_attempts with
  | nil => cases hs : n.status <;> simp [hs] <;> omega
  | cons first rest =>
    cases hs : n.status <;> simp only [hs] <;> split_ifs <;> simp <;> omega

theorem raInv_recordRA {m : List (String × RAAcc)} {nodeName : String} {f : RAAcc → RAAcc}
    (h : RAInv m) (hf : ∀ a, a.successCount + a.failCount + 1 ≤ (f a).successCount + (f a).failCount) :
    RAInv (recordRA nodeName f m) := by
  induction m with
  | nil =>
    intro kv hkv
    simp [recordRA] at hkv
    subst hkv
    have := hf {}
    simpa using le_trans (by simp) this
  | cons kv₀ rest ih =>
    have hhead := h kv₀ (by simp)
    have htail : RAInv rest := fun kv hkv => h kv (by simp [hkv])
    intro kv hkv
    simp only [recordRA] at hkv
    by_cases he : kv₀.1 = nodeName
    · rw [if_pos he] at hkv
      rcases List.mem_cons.mp hkv with hkv | hkv
      · subst hkv
        exact le_trans (by omega) (hf kv₀.2)
      · exact htail kv hkv
    · rw [if_neg he] at hkv
      rcases List.mem_cons.mp hkv with hkv | hkv
      · exact hkv ▸ hhead
      · exact ih htail kv hkv

theorem raInv_raStep {dateMs : String → Int} {m : List (String × RAAcc)} {n : NodeInfo}
    (h : RAInv m) : RAInv (raStep dateMs m n) := by
  unfold raStep
  split
  · exact h
  · exact raInv_recordRA h fun a => by rw [raBump_counts]

theorem raInv_analyzeMap (dateMs : String → Int) (tasks : List TaskInfo) :
    RAInv (tasks.foldl (fun m t => t.nodes.foldl (raStep dateMs) m) []) := by
  suffices hgen : ∀ (ts : List TaskInfo) (m : List (String × RAAcc)), RAInv m →
      RAInv (ts.foldl (fun m t => t.nodes.foldl (raStep dateMs) m) m) by
    exact hgen tasks [] (by intro kv hkv; simp at hkv)
  intro ts
  induction ts with
  | nil => intro m h; exact h
  | cons t rest ih =>
    intro m h
    refine ih _ ?_
    suffices hn : ∀ (ns : List NodeInfo) (m : List (String × RAAcc)), RAInv m →
        RAInv (ns.foldl (raStep dateMs) m) by exact hn t.nodes m h
    intro ns
    induction ns with
    | nil => intro m h; exact h
    | cons n rest2 ih2 => intro m h; exact ih2 _ (raInv_raStep h)

theorem finalizeRA_props {kv : String × RAAcc} {row : RecognitionActionStatistics}
    (hfin : finalizeRA kv = some row) :
    row.successCount = kv.2.successCount ∧
      row.failCount = kv.2.failCount ∧
      row.successRate =
        ((kv.2.successCount : ℚ) /
            ((kv.2.successCount : ℚ) + (kv.2.failCount : ℚ))) * 100 ∧
      kv.2.successCount + kv.2.failCount ≠ 0 := by
  unfold finalizeRA at hfin
  by_cases hz : kv.2.successCount + kv.2.failCount = 0
  · rw [if_pos hz] at hfin
    exact absurd hfin (by simp)
  · rw [if_neg hz] at hfin
    simp only [Option.some.injEq] at hfin
    subst hfin
    refine ⟨rfl, rfl, ?_, hz⟩
    simp [Nat.cast_add]

/-- Every row of `analyzeRecognitionAction` comes from a stats-map entry. -/
theorem mem_analyzeRA {dateMs : String → Int} {tasks : List TaskInfo}
    {row : RecognitionActionStatistics} (h : row ∈ analyzeRecognitionAction dateMs tasks) :
    ∃ kv ∈ tasks.foldl (fun m t => t.nodes.foldl (raStep dateMs) m) [],
      finalizeRA kv = some row := by
  unfold analyzeRecognitionAction at h
  rw [List.mem_insertionSort] at h
  exact List.mem_filterMap.mp h

/-- The success-rate shape shared by both aggregation passes. -/
theorem rate_props (s f : Nat) (hpos : 0 < s + f) :
    ((s : ℚ) / ((s : ℚ) + (f : ℚ))) * 100 = 100 * (s : ℚ) / ((s : ℚ) + (f : ℚ)) ∧
      0 ≤ ((s : ℚ) / ((s : ℚ) + (f : ℚ))) * 100 ∧
      ((s : ℚ) / ((s : ℚ) + (f : ℚ))) * 100 ≤ 100 := by
  have hden : (0 : ℚ) < (s : ℚ) + (f : ℚ) := by
    have : (0 : ℚ) < ((s + f : Nat) : ℚ) := by exact_mod_cast hpos
    simpa [Nat.cast_add] using this
  refine ⟨by ring, ?_, ?_⟩
  · positivity
  · have h1 : (s : ℚ) / ((s : ℚ) + (f : ℚ)) ≤ 1 := by
      rw [div_le_one hden]
      simp
    calc ((s : ℚ) / ((s : ℚ) + (f : ℚ))) * 100 ≤ 1 * 100 := by
          exact mul_le_mul_of_nonneg_right h1 (by norm_num)
      _ = 100 := by norm_num

end NodeStatisticsAnalyzer
end MaaLog

namespace MaaLog

open NodeStatisticsAnalyzer

/-- Claim C1, counterexample: the source filter in `analyze` is
`duration < 0 || duration > 3600000`, so a duration of exactly 3600000 ms is
kept; on this forest the emitted row's duration list is `[3600000]`, which is
not contained in the claimed half-open interval `[0, 3600000)`. -/
theorem claim_C1_counterexample :
    ¬ (∀ row ∈ NodeStatisticsAnalyzer.analyze msOfDigits [c1task],
        ∀ d ∈ row.durations, 0 ≤ d ∧ d < 3600000) := by decide

/-- Claim C1 (amended): a per-node duration computed by `analyze` that is
negative or strictly greater than 3600000 ms is discarded; every duration
entering a row lies in the closed interval `[0, 3600000]`, and the row's
count, success/fail counters and total are aggregated from exactly those kept
durations. -/
theorem claim_C1_amended (dateMs : String → Int) (tasks : List TaskInfo) :
    ∀ row ∈ NodeStatisticsAnalyzer.analyze dateMs tasks,
      (∀ d ∈ row.durations, 0 ≤ d ∧ d ≤ 3600000) ∧
        row.count = row.durations.length ∧
        row.successCount + row.failCount = row.count ∧
        row.totalDuration = row.durations.foldl (fun s x => s + x) 0 := by
  intro row hrow
  obtain ⟨kv, hkv, hfin⟩ := mem_analyze hrow
  obtain ⟨hcnt, hbound⟩ := statsInv_analyzeMap dateMs tasks kv hkv
  obtain ⟨hdur, hc, hs, hf, htot, _, _⟩ := finalizeRow_props hfin
  refine ⟨?_, ?_, ?_, ?_⟩
  · intro d hd; exact hbound d (hdur ▸ hd)
  · rw [hc, hdur]
  · rw [hs, hf, hc, hcnt]
  · rw [htot, hdur]

/-- Witness for the amended claim C1 at a concrete forest. -/
theorem claim_C1_witness :
    (∀ d ∈ c1row.durations, 0 ≤ d ∧ d ≤ 3600000) ∧
      c1row.count = c1row.durations.length ∧
      c1row.successCount + c1row.failCount = c1row.count ∧
      c1row.totalDuration = c1row.durations.foldl (fun s x => s + x) 0 :=
  claim_C1_amended msOfDigits [c1task] c1row (List.get_mem _ _ _)

/-- Claim C7: every row emitted by either aggregation pass has a strictly
positive success/fail denominator, its success rate equals
`100 * successCount / (successCount + failCount)`, and the rate lies in
`[0, 100]`. -/
theorem claim_C7 (dateMs : String → Int) (tasks : List TaskInfo) :
    (∀ row ∈ NodeStatisticsAnalyzer.analyze dateMs tasks,
        0 < row.successCount + row.failCount ∧
          row.successRate =
            100 * (row.successCount : ℚ) / ((row.successCount : ℚ) + (row.failCount : ℚ)) ∧
          0 ≤ row.successRate ∧ row.successRate ≤ 100) ∧
      (∀ row ∈ NodeStatisticsAnalyzer.analyzeRecognitionAction dateMs tasks,
        0 < row.successCount + row.failCount ∧
          row.successRate =
            100 * (row.successCount : ℚ) / ((row.successCount : ℚ) + (row.failCount : ℚ)) ∧
          0 ≤ row.successRate ∧ row.successRate ≤ 100) := by
  constructor
  · intro row hrow
    obtain ⟨kv, hkv, hfin⟩ := mem_analyze hrow
    obtain ⟨hcnt, _⟩ := statsInv_analyzeMap dateMs tasks kv hkv
    obtain ⟨hdur, _, hs, hf, _, hrate, hne⟩ := finalizeRow_props hfin
    have hpos : 0 < kv.2.successCount + kv.2.failCount := by
      rw [hcnt]
      exact List.length_pos.mpr hne
    obtain ⟨heq, h0, h100⟩ := rate_props kv.2.successCount kv.2.failCount hpos
    refine ⟨by rw [hs, hf]; exact hpos, ?_, ?_, ?_⟩
    · rw [hrate, hs, hf, heq]
    · rw [hrate]; exact h0
    · rw [hrate]; exact h100
  · intro row hrow
    obtain ⟨kv, hkv, hfin⟩ := mem_analyzeRA hrow
    have hpos : 0 < kv.2.successCount + kv.2.failCount :=
      raInv_analyzeMap dateMs tasks kv hkv
    obtain ⟨hs, hf, hrate, _⟩ := finalizeRA_props hfin
    obtain ⟨heq, h0, h100⟩ := rate_props kv.2.successCount kv.2.failCount hpos
    refine ⟨by rw [hs, hf]; exact hpos, ?_, ?_, ?_⟩
    · rw [hrate, hs, hf, heq]
    · rw [hrate]; exact h0
    · rw [hrate]; exact h100

/-- Witness for claim C7 at a concrete forest, covering both passes. -/
theorem claim_C7_witness :
    (0 < c7rowA.successCount + c7rowA.failCount ∧
        c7rowA.successRate =
          100 * (c7rowA.successCount : ℚ) / ((c7rowA.successCount : ℚ) + (c7rowA.failCount : ℚ)) ∧
        0 ≤ c7rowA.successRate ∧ c7rowA.successRate ≤ 100) ∧
      (0 < c7rowB.successCount + c7rowB.failCount ∧
        c7rowB.successRate =
          100 * (c7rowB.successCount : ℚ) / ((c7rowB.successCount : ℚ) + (c7rowB.failCount : ℚ)) ∧
        0 ≤ c7rowB.successRate ∧ c7rowB.successRate ≤ 100) :=
  ⟨(claim_C7 msOfDigits [c7task]).1 c7rowA (List.get_mem _ _ _),
    (claim_C7 msOfDigits [c7task]).2 c7rowB (List.get_mem _ _ _)⟩

end MaaLog


namespace MaaLog

open LogParser

/-- Claim C2, counterexample: both `Tasker.Task.Starting` events compute the
same dedup key `"_5"`, so the second one creates no task; `getTasks` returns
one task, not the two open tasks the claim asserts. -/
theorem claim_C2_counterexample :
    (getTasksList msOfDigits [c2e1, c2e2, c2e3, c2e4]).length = 1 := by decide

/-- Claim C2 (amended): on this event sequence the second `Starting` event is
deduplicated by the key `uuid_task_id`, so exactly one open task is created;
the first close event matches it by task_id FIFO (its end-event index is 2,
the index of the first `Succeeded` event) and sets status `succeeded`; the
second close event finds no open task and is ignored. -/
theorem claim_C2_amended :
    ((getTasksList msOfDigits [c2e1, c2e2, c2e3, c2e4]).map fun t =>
      (t.task_id, t.status, t.endEventIndex)) = [(5, .succeeded, some 2)] := by decide

/-- Claim C3: the round-trip scenario yields exactly one task, with status
`succeeded`, containing exactly one node whose name is "X". -/
theorem claim_C3 :
    ((getTasksList msOfDigits [c3e1, c3e2, c3e3]).map fun t =>
      (t.status, t.nodes.map NodeInfo.name)) = [(.succeeded, ["X"])] := by decide

end MaaLog

namespace MaaLog

open LogParser

/-- Claim C9: `getTasks` consumes the event buffer: the successor state has an
empty event list, `getEvents` on it returns `[]`, and a second `getTasks` call
without an intervening `parseFile` returns the empty task list. -/
theorem claim_C9 (dateMs : String → Int) (s : ParserState) :
    (getTasksState dateMs s).2.events = [] ∧
      getEvents (getTasksState dateMs s).2 = [] ∧
      (getTasksState dateMs (getTasksState dateMs s).2).1 = [] :=
  ⟨rfl, rfl, rfl⟩

end MaaLog

namespace MaaLog

namespace LogParser

theorem intTruthy_eq_some {x : Option Int} {k : Int} (h : intTruthy x = some k) :
    x = some k ∧ k ≠ 0 := by
  cases x with
  | none => simp [intTruthy] at h
  | some j =>
    by_cases hj : j = 0
    · simp [intTruthy, hj] at h
    · simp [intTruthy, hj] at h
      exact ⟨by rw [h], h ▸ hj⟩

theorem intTruthy_isSome {x : Option Int} (h : (intTruthy x).isSome) :
    ∃ y, x = some y ∧ y ≠ 0 := by
  cases x with
  | none => simp [intTruthy] at h
  | some j =>
    by_cases hj : j = 0
    · simp [intTruthy, hj] at h
    · exact ⟨j, rfl, hj⟩

theorem keyOfTask_closeTask (dateMs : String → Int) (e : EventNotification) (i : Nat)
    (t : TaskInfo) : keyOfTask (closeTask dateMs e i t) = keyOfTask t := by
  simp only [closeTask, keyOfTask]
  split <;> rfl

theorem task_id_closeTask (dateMs : String → Int) (e : EventNotification) (i : Nat)
    (t : TaskInfo) : (closeTask dateMs e i t).task_id = t.task_id := by
  simp only [closeTask]
  split <;> rfl

theorem map_updateFirst (g : α → β) (p : α → Bool) (f : α → α)
    (hg : ∀ x, g (f x) = g x) :
    ∀ l : List α, (updateFirst p f l).map g = l.map g := by
  intro l
  induction l with
  | nil => rfl
  | cons x xs ih =>
    unfold updateFirst
    split
    · simp [hg x]
    · simp [ih]

theorem forall_updateFirst {p : α → Bool} {f : α → α} {P : α → Prop}
    (hf : ∀ x, P x → P (f x)) :
    ∀ l : List α, (∀ x ∈ l, P x) → ∀ x ∈ updateFirst p f l, P x := by
  intro l
  induction l with
  | nil => intro _ x hx; simp [updateFirst] at hx
  | cons y ys ih =>
    intro h x hx
    unfold updateFirst at hx
    split at hx
    · rcases List.mem_cons.mp hx with hx | hx
      · exact hx ▸ hf y (h y (by simp))
      · exact h x (by simp [hx])
    · rcases List.mem_cons.mp hx with hx | hx
      · exact h x (by simp [hx])
      · exact ih (fun z hz => h z (by simp [hz])) x hx

theorem pass1Inv_create {st : Pass1State} (h : Pass1Inv st) (t : TaskInfo) (k : String)
    (hkeq : keyOfTask t = k) (hk : k ∉ st.taskKeys) (hnz0 : t.task_id ≠ 0) :
    Pass1Inv { tasks := st.tasks ++ [t], taskKeys := st.taskKeys ++ [k] } := by
  obtain ⟨hnd, hsub, hnz⟩ := h
  refine ⟨?_, ?_, ?_⟩
  · show (List.map keyOfTask (st.tasks ++ [t])).Nodup
    rw [List.map_append]
    simp only [List.map_cons, List.map_nil]
    rw [List.nodup_append]
    refine ⟨hnd, by simp, ?_⟩
    intro a ha hmem
    simp only [List.mem_singleton] at hmem
    subst hmem
    rw [hkeq] at ha
    exact hk (hsub _ ha)
  · show ∀ kk ∈ List.map keyOfTask (st.tasks ++ [t]), kk ∈ st.taskKeys ++ [k]
    intro kk hkk
    rw [List.map_append] at hkk
    rcases List.mem_append.mp hkk with h1 | h1
    · exact List.mem_append.mpr (Or.inl (hsub _ h1))
    · simp only [List.map_cons, List.map_nil, List.mem_singleton] at h1
      subst h1
      rw [hkeq]
      exact List.mem_append.mpr (Or.inr (by simp))
  · show ∀ x ∈ st.tasks ++ [t], x.task_id ≠ 0
    intro x hx
    rcases List.mem_append.mp hx with h1 | h1
    · exact hnz x h1
    · simp only [List.mem_singleton] at h1
      subst h1
      exact hnz0

theorem pass1Inv_close {st : Pass1State} (h : Pass1Inv st) (p : TaskInfo → Bool)
    (f : TaskInfo → TaskInfo) (hkey : ∀ t, keyOfTask (f t) = keyOfTask t)
    (hid : ∀ t, (f t).task_id = t.task_id) :
    Pass1Inv { st with tasks := updateFirst p f st.tasks } := by
  obtain ⟨hnd, hsub, hnz⟩ := h
  refine ⟨?_, ?_, ?_⟩
  · show (List.map keyOfTask (updateFirst p f st.tasks)).Nodup
    rw [map_updateFirst keyOfTask p f hkey]
    exact hnd
  · show ∀ k ∈ List.map keyOfTask (updateFirst p f st.tasks), k ∈ st.taskKeys
    rw [map_updateFirst keyOfTask p f hkey]
    exact hsub
  · exact forall_updateFirst (fun t ht => by rw [hid]; exact ht) st.tasks hnz

theorem pass1Step_inv (dateMs : String → Int) {st : Pass1State} (h : Pass1Inv st)
    (i : Nat) (e : EventNotification) : Pass1Inv (pass1Step dateMs st i e) := by
  obtain ⟨hnd, hsub, hnz⟩ := h
  simp only [pass1Step]
  split
  · -- Tasker.Task.Starting
    split
    · next hguard =>
      obtain ⟨hts, hkmem⟩ := hguard
      obtain ⟨y, hy, hynz⟩ := intTruthy_isSome hts
      refine pass1Inv_create ⟨hnd, hsub, hnz⟩ _ _ ?_ hkmem ?_
      · simp [keyOfTask, taskKeyOf, StringPool.intern, idString, hy]
      · simpa [hy] using hynz
    · exact ⟨hnd, hsub, hnz⟩
  · -- a close event or anything else
    split
    · exact pass1Inv_close ⟨hnd, hsub, hnz⟩ _ _ (keyOfTask_closeTask dateMs e i)
        (task_id_closeTask dateMs e i)
    · exact ⟨hnd, hsub, hnz⟩

theorem pass1_inv (dateMs : String → Int) (events : List EventNotification) :
    Pass1Inv (pass1 dateMs events) := by
  unfold pass1
  suffices hgen : ∀ (l : List (Nat × EventNotification)) (st : Pass1State), Pass1Inv st →
      Pass1Inv (l.foldl (fun st ie => pass1Step dateMs st ie.1 ie.2) st) by
    refine hgen _ {} ⟨by simp, by simp, by simp⟩
  intro l
  induction l with
  | nil => intro st h; exact h
  | cons ie rest ih => intro st h; exact ih _ (pass1Step_inv dateMs h ie.1 ie.2)

theorem pass2Task_uuid (dateMs : String → Int) (events : List EventNotification)
    (t : TaskInfo) : (pass2Task dateMs events t).uuid = t.uuid := by
  unfold pass2Task
  dsimp only
  split
  · split <;> rfl
  · rfl

theorem pass2Task_task_id (dateMs : String → Int) (events : List EventNotification)
    (t : TaskInfo) : (pass2Task dateMs events t).task_id = t.task_id := by
  unfold pass2Task
  dsimp only
  split
  · split <;> rfl
  · rfl

end LogParser

end MaaLog

namespace MaaLog

open LogParser

/-- Claim C5: among the tasks returned by `getTasks`, no two distinct tasks
share the same `(uuid, task_id)` pair when the uuid is non-empty, and a
`Tasker.Task.Starting` event whose key `uuid_task_id` is already taken
creates no new task. -/
theorem claim_C5 (dateMs : String → Int) (events : List EventNotification) :
    (getTasksList dateMs events).Pairwise
      (fun t1 t2 => t1.uuid ≠ "" → ¬(t1.uuid = t2.uuid ∧ t1.task_id = t2.task_id)) ∧
      ∀ (st : Pass1State) (i : Nat) (e : EventNotification),
        e.message = "Tasker.Task.Starting" →
        taskKeyOf e.details ∈ st.taskKeys →
        (pass1Step dateMs st i e).tasks = st.tasks := by
  constructor
  · obtain ⟨hnd, -, -⟩ := pass1_inv dateMs events
    have hpw : (pass1 dateMs events).tasks.Pairwise
        (fun a b => keyOfTask a ≠ keyOfTask b) := by
      rw [List.Nodup, List.pairwise_map] at hnd
      exact hnd
    have hpw2 : ((pass1 dateMs events).tasks.map (pass2Task dateMs events)).Pairwise
        (fun t1 t2 => t1.uuid ≠ "" → ¬(t1.uuid = t2.uuid ∧ t1.task_id = t2.task_id)) := by
      rw [List.pairwise_map]
      refine hpw.imp ?_
      intro a b hk _ hpair
      apply hk
      unfold keyOfTask
      rw [pass2Task_uuid, pass2Task_uuid, pass2Task_task_id, pass2Task_task_id] at hpair
      rw [hpair.1, hpair.2]
    exact hpw2.sublist (List.filter_sublist _)
  · intro st i e hmsg hkey
    simp only [pass1Step, if_pos hmsg]
    split
    · next hguard => exact absurd hkey hguard.2
    · rfl

/-- Witness for claim C5: the Pairwise part at the C3-style concrete events,
and the no-new-task part at a state whose key set already holds "a_1". -/
theorem claim_C5_witness :
    (getTasksList msOfDigits [c5e]).Pairwise
        (fun t1 t2 => t1.uuid ≠ "" → ¬(t1.uuid = t2.uuid ∧ t1.task_id = t2.task_id)) ∧
      (pass1Step msOfDigits c5state 0 c5e).tasks = c5state.tasks :=
  ⟨(claim_C5 msOfDigits [c5e]).1,
    (claim_C5 msOfDigits []).2 c5state 0 c5e (by decide) (by decide)⟩

end MaaLog

namespace MaaLog
namespace LogParser

theorem nodesInv_of_eq {st st' : NodesState} (h : NodesInv st)
    (hn : st'.nodes = st.nodes) (hs : st'.nodeIdSet = st.nodeIdSet) : NodesInv st' := by
  rw [NodesInv, hn, hs]
  exact h

theorem nodes_recoNodeBlock (st : NodesState) (e : EventNotification) :
    (recoNodeBlock st e).nodes = st.nodes ∧
      (recoNodeBlock st e).nodeIdSet = st.nodeIdSet := ⟨rfl, rfl⟩

theorem nodes_actionNodeBlock (st : NodesState) (e : EventNotification) :
    (actionNodeBlock st e).nodes = st.nodes ∧
      (actionNodeBlock st e).nodeIdSet = st.nodeIdSet := ⟨rfl, rfl⟩

theorem nodes_recognitionBlock (task : TaskInfo) (st : NodesState) (e : EventNotification) :
    (recognitionBlock task st e).nodes = st.nodes ∧
      (recognitionBlock task st e).nodeIdSet = st.nodeIdSet := by
  simp only [recognitionBlock]
  split <;> exact ⟨rfl, rfl⟩

theorem nodes_actionBlock (task : TaskInfo) (st : NodesState) (e : EventNotification) :
    (actionBlock task st e).nodes = st.nodes ∧
      (actionBlock task st e).nodeIdSet = st.nodeIdSet := by
  simp only [actionBlock]
  split <;> exact ⟨rfl, rfl⟩

theorem nodesInv_append {st : NodesState} (h : NodesInv st) (n : NodeInfo)
    (hn : n.node_id ∉ st.nodeIdSet) (hnz : n.node_id ≠ 0) :
    NodesInv { st with nodes := st.nodes ++ [n], nodeIdSet := st.nodeIdSet ++ [n.node_id] } := by
  obtain ⟨hnd, hmem⟩ := h
  refine ⟨?_, ?_⟩
  · show (List.map NodeInfo.node_id (st.nodes ++ [n])).Nodup
    rw [List.map_append]
    simp only [List.map_cons, List.map_nil]
    rw [List.nodup_append]
    refine ⟨hnd, by simp, ?_⟩
    intro a ha hmem1
    simp only [List.mem_singleton] at hmem1
    subst hmem1
    exact hn (hmem _ ha).1
  · show ∀ i ∈ List.map NodeInfo.node_id (st.nodes ++ [n]),
      i ∈ st.nodeIdSet ++ [n.node_id] ∧ i ≠ 0
    intro i hi
    rw [List.map_append] at hi
    rcases List.mem_append.mp hi with h1 | h1
    · exact ⟨List.mem_append.mpr (Or.inl (hmem i h1).1), (hmem i h1).2⟩
    · simp only [List.map_cons, List.map_nil, List.mem_singleton] at h1
      subst h1
      exact ⟨List.mem_append.mpr (Or.inr (by simp)), hnz⟩

theorem nodesInv_pipelineBlock (task : TaskInfo) {st : NodesState} (h : NodesInv st)
    (e : EventNotification) : NodesInv (pipelineBlock task st e) := by
  simp only [pipelineBlock]
  split
  · next hguard =>
    obtain ⟨hts, hnin⟩ := hguard
    obtain ⟨y, hy, hynz⟩ := intTruthy_isSome hts
    exact nodesInv_of_eq (nodesInv_append h _ hnin (by simpa [hy] using hynz)) rfl rfl
  · exact nodesInv_of_eq h rfl rfl

theorem nodesInv_nodesStep (task : TaskInfo) {st : NodesState} (h : NodesInv st)
    (e : EventNotification) : NodesInv (nodesStep task st e) := by
  unfold nodesStep
  split_ifs <;>
    first
      | exact nodesInv_pipelineBlock task h e
      | exact nodesInv_of_eq h (nodes_recoNodeBlock st e).1 (nodes_recoNodeBlock st e).2
      | exact nodesInv_of_eq h (nodes_actionNodeBlock st e).1 (nodes_actionNodeBlock st e).2
      | exact nodesInv_of_eq h (nodes_recognitionBlock task st e).1
          (nodes_recognitionBlock task st e).2
      | exact nodesInv_of_eq h (nodes_actionBlock task st e).1 (nodes_actionBlock task st e).2

theorem nodesInv_fold (task : TaskInfo) :
    ∀ (evs : List EventNotification) (st : NodesState), NodesInv st →
      NodesInv (evs.foldl (nodesStep task) st) := by
  intro evs
  induction evs with
  | nil => intro st h; exact h
  | cons e rest ih => intro st h; exact ih _ (nodesInv_nodesStep task h e)

theorem getTaskNodes_ok (events : List EventNotification) (task : TaskInfo) :
    ((getTaskNodes events task).map NodeInfo.node_id).Nodup ∧
      ∀ n ∈ getTaskNodes events task, n.node_id ≠ 0 := by
  unfold getTaskNodes
  cases task.startEventIndex with
  | none => exact ⟨by simp, by simp⟩
  | some si =>
    have hinv := nodesInv_fold task
      ((events.take (match task.endEventIndex with
        | some j => j + 1
        | none => events.length)).drop si) {} ⟨by simp, by simp⟩
    refine ⟨hinv.1, ?_⟩
    intro n hn
    exact (hinv.2 n.node_id (List.mem_map_of_mem _ hn)).2

theorem pass2Task_nodes (dateMs : String → Int) (events : List EventNotification)
    (t : TaskInfo) : (pass2Task dateMs events t).nodes = getTaskNodes events t := by
  unfold pass2Task
  dsimp only
  split
  · split <;> rfl
  · rfl

end LogParser

open LogParser

/-- Claim C8: no two nodes of any task returned by `getTasks` share a
node_id. -/
theorem claim_C8 (dateMs : String → Int) (events : List EventNotification) :
    ∀ t ∈ getTasksList dateMs events, (t.nodes.map NodeInfo.node_id).Nodup := by
  intro t ht
  unfold getTasksList at ht
  obtain ⟨t0, ht0, rfl⟩ := List.mem_map.mp (List.mem_of_mem_filter ht)
  rw [pass2Task_nodes]
  exact (getTaskNodes_ok events t0).1

/-- Witness for claim C8 at a concrete event sequence. -/
theorem claim_C8_witness : (c8task.nodes.map NodeInfo.node_id).Nodup :=
  claim_C8 msOfDigits [c8e1, c8e2, c8e3] c8task (List.get_mem _ _ _)

/-- Claim C10: a `Tasker.Task.Starting` event with an absent or zero task_id
creates no task, and a `Node.PipelineNode.Succeeded|Failed` event with an
absent or zero node_id materializes no node: every task returned by
`getTasks` has a nonzero task_id and every node a nonzero node_id (creation
is guarded by JS truthiness of the ids). -/
theorem claim_C10 (dateMs : String → Int) (events : List EventNotification) :
    ∀ t ∈ getTasksList dateMs events,
      t.task_id ≠ 0 ∧ ∀ n ∈ t.nodes, n.node_id ≠ 0 := by
  intro t ht
  unfold getTasksList at ht
  obtain ⟨t0, ht0, rfl⟩ := List.mem_map.mp (List.mem_of_mem_filter ht)
  obtain ⟨-, -, hnz⟩ := pass1_inv dateMs events
  refine ⟨?_, ?_⟩
  · rw [pass2Task_task_id]
    exact hnz t0 ht0
  · rw [pass2Task_nodes]
    exact (getTaskNodes_ok events t0).2

/-- Witness for claim C10 at a concrete event sequence. -/
theorem claim_C10_witness :
    c10task.task_id ≠ 0 ∧ ∀ n ∈ c10task.nodes, n.node_id ≠ 0 :=
  claim_C10 msOfDigits [c10e1, c10e2, c10e3] c10task (List.get_mem _ _ _)

end MaaLog

theorem assocGet_append [DecidableEq κ] (k : κ) (m : List (κ × α)) (k' : κ) (v : α) :
    assocGet k (m ++ [(k', v)]) =
      match assocGet k m with
      | some w => some w
      | none => if k' = k then some v else none := by
  induction m with
  | nil => simp [assocGet]
  | cons kv rest ih =>
    by_cases h : kv.1 = k <;> simp [assocGet, h, ih]

namespace MaaLog
namespace LogParser

/-- The effect of one marker line on the owner maps. -/
theorem noteLine_maps (s : ParserState) (l : NotifyLine) :
    ((noteLine s l).taskProcessMap, (noteLine s l).taskThreadMap) =
      match l.msg, l.details with
      | some m, some d =>
        if m = "Tasker.Task.Starting" ∧ (intTruthy d.task_id).isSome ∧
            (assocGet (d.task_id.getD 0) s.taskProcessMap).isNone then
          (s.taskProcessMap ++ [(d.task_id.getD 0, l.processId)],
            s.taskThreadMap ++ [(d.task_id.getD 0, l.threadId)])
        else (s.taskProcessMap, s.taskThreadMap)
      | _, _ => (s.taskProcessMap, s.taskThreadMap) := by
  unfold noteLine
  cases hm : l.msg with
  | none => rfl
  | some m =>
    cases hd : l.details with
    | none =>
      by_cases hms : m = "Tasker.Task.Starting" <;> simp [hms]
    | some d =>
      by_cases hms : m = "Tasker.Task.Starting"
      · subst hms
        simp only [if_pos rfl]
        split_ifs with h1 h2 <;> simp_all
      · simp [hms]

end LogParser
end MaaLog

theorem lexLeb_total : ∀ as bs, lexLeb as bs = true ∨ lexLeb bs as = true := by
  intro as
  induction as with
  | nil => intro bs; left; rfl
  | cons a as ih =>
    intro bs
    cases bs with
    | nil => right; rfl
    | cons b bs =>
      by_cases h1 : a.toNat < b.toNat
      · left; simp [lexLeb, h1]
      · by_cases h2 : b.toNat < a.toNat
        · right; simp [lexLeb, h1, h2]
        · rcases ih bs with h | h <;> [left; right] <;> simp [lexLeb, h1, h2, h]

theorem lexLeb_trans : ∀ as bs cs, lexLeb as bs = true → lexLeb bs cs = true →
    lexLeb as cs = true := by
  intro as
  induction as with
  | nil => intro bs cs _ _; rfl
  | cons a as ih =>
    intro bs cs h1 h2
    cases bs with
    | nil => simp [lexLeb] at h1
    | cons b bs =>
      cases cs with
      | nil => simp [lexLeb] at h2
      | cons c cs =>
        simp only [lexLeb] at h1 h2 ⊢
        by_cases hab : a.toNat < b.toNat
        · rw [if_pos hab] at h1
          by_cases hbc : b.toNat < c.toNat
          · rw [if_pos (show a.toNat < c.toNat by omega)]
          · rw [if_neg hbc] at h2
            by_cases hcb : c.toNat < b.toNat
            · rw [if_pos hcb] at h2; exact absurd h2 (by simp)
            · rw [if_pos (show a.toNat < c.toNat by omega)]
        · rw [if_neg hab] at h1
          by_cases hba : b.toNat < a.toNat
          · rw [if_pos hba] at h1; exact absurd h1 (by simp)
          · rw [if_neg hba] at h1
            by_cases hbc : b.toNat < c.toNat
            · rw [if_pos (show a.toNat < c.toNat by omega)]
            · rw [if_neg hbc] at h2
              by_cases hcb : c.toNat < b.toNat
              · rw [if_pos hcb] at h2; exact absurd h2 (by simp)
              · rw [if_neg hcb] at h2
                rw [if_neg (show ¬ a.toNat < c.toNat by omega),
                  if_neg (show ¬ c.toNat < a.toNat by omega)]
                exact ih bs cs h1 h2

theorem mem_foldl_addUnique :
    ∀ (l acc : List String) (x : String), x ∈ l.foldl MaaLog.LogParser.addUnique acc →
      x ∈ acc ∨ x ∈ l := by
  intro l
  induction l with
  | nil => intro acc x h; exact Or.inl h
  | cons a rest ih =>
    intro acc x h
    rw [List.foldl_cons] at h
    rcases ih _ x h with h1 | h1
    · unfold MaaLog.LogParser.addUnique at h1
      split at h1
      · exact Or.inl h1
      · rcases List.mem_append.mp h1 with h2 | h2
        · exact Or.inl h2
        · simp only [List.mem_singleton] at h2
          exact Or.inr (by simp [h2])
    · exact Or.inr (by simp [h1])

namespace MaaLog
namespace LogParser

/-- Breakdown of the `isStartingFor` recording condition. -/
theorem isStartingFor_iff {k : Int} {l : NotifyLine} :
    isStartingFor k l = true ↔
      l.msg = some "Tasker.Task.Starting" ∧ ∃ d, l.details = some d ∧ d.task_id = some k := by
  unfold isStartingFor
  cases hld : l.details with
  | none => simp
  | some d => simp

/-- The effect of one marker line on the lookups of both owner maps at a
nonzero key `k`: the first `Tasker.Task.Starting` line whose task_id is
exactly `k` installs its process/thread id, anything else leaves the lookup
unchanged. -/
theorem noteLine_lookup (k : Int) (hk : k ≠ 0) (s : ParserState) (l : NotifyLine)
    (hsync : (assocGet k s.taskProcessMap).isNone ↔ (assocGet k s.taskThreadMap).isNone) :
    (assocGet k (noteLine s l).taskProcessMap,
        assocGet k (noteLine s l).taskThreadMap) =
      if isStartingFor k l = true ∧ (assocGet k s.taskProcessMap).isNone then
        (some l.processId, some l.threadId)
      else (assocGet k s.taskProcessMap, assocGet k s.taskThreadMap) := by
  have hmaps := noteLine_maps s l
  have hP := congrArg Prod.fst hmaps
  have hT := congrArg Prod.snd hmaps
  simp only at hP hT
  cases hm : l.msg with
  | none =>
    rw [hm] at hP hT
    rw [hP, hT, if_neg]
    intro hc
    rw [isStartingFor_iff] at hc
    exact (by simp [hm] : l.msg ≠ some "Tasker.Task.Starting") hc.1.1
  | some m =>
    cases hd : l.details with
    | none =>
      rw [hm, hd] at hP hT
      rw [hP, hT, if_neg]
      intro hc
      obtain ⟨-, d, hdd, -⟩ := isStartingFor_iff.mp hc.1
      rw [hd] at hdd
      exact Option.noConfusion hdd
    | some d =>
      rw [hm, hd] at hP hT
      dsimp only at hP hT
      by_cases hg : m = "Tasker.Task.Starting" ∧ (intTruthy d.task_id).isSome = true ∧
          (assocGet (d.task_id.getD 0) s.taskProcessMap).isNone = true
      · rw [if_pos hg] at hP hT
        dsimp only at hP hT
        obtain ⟨hms, hts, hnone⟩ := hg
        obtain ⟨y, hy, hynz⟩ := intTruthy_isSome hts
        have hgd : d.task_id.getD 0 = y := by rw [hy]; rfl
        by_cases hyk : k = y
        · subst hyk
          rw [hgd] at hP hT hnone
          have hsf : isStartingFor k l = true := by
            rw [isStartingFor_iff]
            exact ⟨by rw [hm, hms], d, hd, by rw [hy]⟩
          rw [hP, hT, if_pos ⟨hsf, hnone⟩]
          have hnoneT : (assocGet k s.taskThreadMap).isNone := by
            rw [← hsync]
            exact hnone
          rw [assocGet_append, assocGet_append]
          rw [Option.isNone_iff_eq_none] at hnone hnoneT
          rw [hnone, hnoneT]
          simp
        · have hne : ¬ d.task_id.getD 0 = k := by
            rw [hgd]
            exact fun h => hyk h.symm
          have hsfF : ¬ (isStartingFor k l = true ∧
              (assocGet k s.taskProcessMap).isNone = true) := by
            intro hc
            obtain ⟨hmsg2, d2, hdd2, htid2⟩ := isStartingFor_iff.mp hc.1
            rw [hd] at hdd2
            injection hdd2 with hdd2
            subst hdd2
            rw [hy] at htid2
            injection htid2 with htid2
            exact hyk htid2.symm
          rw [hP, hT, if_neg hsfF, assocGet_append, assocGet_append]
          cases hlook : assocGet k s.taskProcessMap <;>
            cases hlookT : assocGet k s.taskThreadMap <;>
            simp [hne, hlook, hlookT]
      · rw [if_neg hg] at hP hT
        dsimp only at hP hT
        rw [hP, hT, if_neg]
        intro hc
        obtain ⟨hsf, hnone⟩ := hc
        obtain ⟨hmsg2, d2, hdd2, htid2⟩ := isStartingFor_iff.mp hsf
        rw [hd] at hdd2
        injection hdd2 with hdd2
        subst hdd2
        apply hg
        refine ⟨?_, ?_, ?_⟩
        · rw [hm] at hmsg2
          injection hmsg2
        · rw [htid2]
          simp [intTruthy, hk]
        · rw [htid2]
          show (assocGet ((some k).getD 0) s.taskProcessMap).isNone = true
          simpa using hnone
  
end LogParser
end MaaLog

namespace MaaLog
namespace LogParser

/-- Folding the marker lines from a state whose owner maps agree on the
presence of a nonzero key `k`: the lookup after the fold is the initial
binding if present, otherwise the process/thread id of the first
`Tasker.Task.Starting` line whose task_id is exactly `k`. -/
theorem ownerMap_fold (k : Int) (hk : k ≠ 0) :
    ∀ (lines : List NotifyLine) (s : ParserState),
      ((assocGet k s.taskProcessMap).isNone ↔ (assocGet k s.taskThreadMap).isNone) →
      (assocGet k (lines.foldl noteLine s).taskProcessMap,
          assocGet k (lines.foldl noteLine s).taskThreadMap) =
        match assocGet k s.taskProcessMap, assocGet k s.taskThreadMap with
        | none, none =>
          ((lines.find? (isStartingFor k)).map NotifyLine.processId,
            (lines.find? (isStartingFor k)).map NotifyLine.threadId)
        | p, t => (p, t) := by
  intro lines
  induction lines with
  | nil =>
    intro s hsync
    simp only [List.foldl_nil, List.find?_nil, Option.map_none]
    cases hlook : assocGet k s.taskProcessMap with
    | none =>
      cases hlookT : assocGet k s.taskThreadMap with
      | none => rfl
      | some w =>
        exfalso
        have := hsync.mp (by simp [hlook])
        simp [hlookT] at this
    | some v =>
      cases hlookT : assocGet k s.taskThreadMap with
      | none =>
        exfalso
        have := hsync.mpr (by simp [hlookT])
        simp [hlook] at this
      | some w => rfl
  | cons l rest ih =>
    intro s hsync
    rw [List.foldl_cons]
    have hstep := noteLine_lookup k hk s l hsync
    have hstepP := congrArg Prod.fst hstep
    have hstepT := congrArg Prod.snd hstep
    dsimp only at hstepP hstepT
    by_cases hsf : isStartingFor k l = true
    · rw [List.find?_cons_of_pos _ hsf]
      cases hlook : assocGet k s.taskProcessMap with
      | none =>
        have hlookT : assocGet k s.taskThreadMap = none := by
          have := hsync.mp (by simp [hlook])
          simpa using this
        rw [hlook] at hstepP hstepT
        rw [if_pos ⟨hsf, by simp⟩] at hstepP hstepT
        dsimp only at hstepP hstepT
        have hsync2 : (assocGet k (noteLine s l).taskProcessMap).isNone ↔
            (assocGet k (noteLine s l).taskThreadMap).isNone := by
          rw [hstepP, hstepT]
          simp
        have hrest := ih (noteLine s l) hsync2
        rw [hstepP, hstepT] at hrest
        rw [hlookT]
        exact hrest
      | some v =>
        have hlookT : ∃ w, assocGet k s.taskThreadMap = some w := by
          cases h2 : assocGet k s.taskThreadMap with
          | none =>
            exfalso
            have := hsync.mpr (by simp [h2])
            simp [hlook] at this
          | some w => exact ⟨w, rfl⟩
        obtain ⟨w, hlookT⟩ := hlookT
        rw [hlook] at hstepP hstepT
        rw [if_neg (by simp)] at hstepP hstepT
        dsimp only at hstepP hstepT
        rw [hlookT] at hstepT
        have hsync2 : (assocGet k (noteLine s l).taskProcessMap).isNone ↔
            (assocGet k (noteLine s l).taskThreadMap).isNone := by
          rw [hstepP, hstepT]
          simp
        have hrest := ih (noteLine s l) hsync2
        rw [hstepP, hstepT] at hrest
        rw [hlookT]
        exact hrest
    · rw [List.find?_cons_of_neg _ hsf]
      rw [if_neg (fun hc => hsf hc.1)] at hstepP hstepT
      have hsync2 : (assocGet k (noteLine s l).taskProcessMap).isNone ↔
          (assocGet k (noteLine s l).taskThreadMap).isNone := by
        rw [hstepP, hstepT]
        exact hsync
      have hrest := ih (noteLine s l) hsync2
      rw [hstepP, hstepT] at hrest
      exact hrest

end LogParser
end MaaLog

namespace MaaLog
namespace LogParser

/-- Every binding of the owner maps after a parse pass comes from a
`Tasker.Task.Starting` marker line with that truthy task_id. -/
theorem ownerMap_entries :
    ∀ (lines : List NotifyLine) (s : ParserState),
      (∀ kv ∈ (lines.foldl noteLine s).taskProcessMap,
          kv ∈ s.taskProcessMap ∨
            ∃ l ∈ lines, l.msg = some "Tasker.Task.Starting" ∧
              (∃ d, l.details = some d ∧ d.task_id = some kv.1 ∧ kv.1 ≠ 0) ∧
              l.processId = kv.2) ∧
        ∀ kv ∈ (lines.foldl noteLine s).taskThreadMap,
          kv ∈ s.taskThreadMap ∨
            ∃ l ∈ lines, l.msg = some "Tasker.Task.Starting" ∧
              (∃ d, l.details = some d ∧ d.task_id = some kv.1 ∧ kv.1 ≠ 0) ∧
              l.threadId = kv.2 := by
  intro lines
  induction lines with
  | nil => intro s; exact ⟨fun kv h => Or.inl h, fun kv h => Or.inl h⟩
  | cons l rest ih =>
    intro s
    rw [List.foldl_cons]
    have hmaps := noteLine_maps s l
    have hP := congrArg Prod.fst hmaps
    have hT := congrArg Prod.snd hmaps
    dsimp only at hP hT
    have hstep : ∀ kv,
        (kv ∈ (noteLine s l).taskProcessMap →
          kv ∈ s.taskProcessMap ∨
            (l.msg = some "Tasker.Task.Starting" ∧
              (∃ d, l.details = some d ∧ d.task_id = some kv.1 ∧ kv.1 ≠ 0) ∧
              l.processId = kv.2)) ∧
        (kv ∈ (noteLine s l).taskThreadMap →
          kv ∈ s.taskThreadMap ∨
            (l.msg = some "Tasker.Task.Starting" ∧
              (∃ d, l.details = some d ∧ d.task_id = some kv.1 ∧ kv.1 ≠ 0) ∧
              l.threadId = kv.2)) := by
      intro kv
      cases hm : l.msg with
      | none =>
        rw [hm] at hP hT
        rw [hP, hT]
        exact ⟨fun h => Or.inl h, fun h => Or.inl h⟩
      | some m =>
        cases hd : l.details with
        | none =>
          rw [hm, hd] at hP hT
          rw [hP, hT]
          exact ⟨fun h => Or.inl h, fun h => Or.inl h⟩
        | some d =>
          rw [hm, hd] at hP hT
          dsimp only at hP hT
          by_cases hg : m = "Tasker.Task.Starting" ∧ (intTruthy d.task_id).isSome = true ∧
              (assocGet (d.task_id.getD 0) s.taskProcessMap).isNone = true
          · rw [if_pos hg] at hP hT
            dsimp only at hP hT
            rw [hP, hT]
            obtain ⟨y, hy, hynz⟩ := intTruthy_isSome hg.2.1
            constructor
            · intro h
              rcases List.mem_append.mp h with h2 | h2
              · exact Or.inl h2
              · simp only [List.mem_singleton] at h2
                subst h2
                refine Or.inr ⟨?_, ⟨d, rfl, ?_, ?_⟩, rfl⟩
                · rw [hg.1]
                · simp [hy]
                · simpa [hy] using hynz
            · intro h
              rcases List.mem_append.mp h with h2 | h2
              · exact Or.inl h2
              · simp only [List.mem_singleton] at h2
                subst h2
                refine Or.inr ⟨?_, ⟨d, rfl, ?_, ?_⟩, rfl⟩
                · rw [hg.1]
                · simp [hy]
                · simpa [hy] using hynz
          · rw [if_neg hg] at hP hT
            dsimp only at hP hT
            rw [hP, hT]
            exact ⟨fun h => Or.inl h, fun h => Or.inl h⟩
    constructor
    · intro kv hkv
      rcases (ih (noteLine s l)).1 kv hkv with h1 | h1
      · rcases (hstep kv).1 h1 with h2 | h2
        · exact Or.inl h2
        · exact Or.inr ⟨l, by simp, h2.1, h2.2.1, h2.2.2⟩
      · obtain ⟨l2, hl2, hrest⟩ := h1
        exact Or.inr ⟨l2, by simp [hl2], hrest⟩
    · intro kv hkv
      rcases (ih (noteLine s l)).2 kv hkv with h1 | h1
      · rcases (hstep kv).2 h1 with h2 | h2
        · exact Or.inl h2
        · exact Or.inr ⟨l, by simp, h2.1, h2.2.1, h2.2.2⟩
      · obtain ⟨l2, hl2, hrest⟩ := h1
        exact Or.inr ⟨l2, by simp [hl2], hrest⟩

end LogParser
end MaaLog

namespace MaaLog

open LogParser

/-- Claim C6, counterexample: `task_id` equal to 0 is present but falsy in JS,
so the first `Tasker.Task.Starting` line carrying it records nothing: the
owner map lookup returns nothing instead of the line's process id "p". -/
theorem claim_C6_counterexample :
    c6line0.msg = some "Tasker.Task.Starting" ∧
      c6line0.details.map Details.task_id = some (some 0) ∧
      c6line0.processId = "p" ∧
      getTaskProcessId (parseF [c6line0]) 0 = none :=
  ⟨rfl, rfl, rfl, by decide⟩

/-- Claim C6 (amended): for every nonzero task_id `k`, the owner maps record
the process and thread id of the first `Tasker.Task.Starting` marker line
whose task_id is exactly `k`, later lines never override the binding, and
`getTaskProcessId`/`getTaskThreadId` return exactly this first-recorded
owner; a present task_id equal to 0 is falsy and never recorded. -/
theorem claim_C6_amended (lines : List NotifyLine) (s : ParserState) (k : Int)
    (hk : k ≠ 0) :
    getTaskProcessId (parseF lines s) k =
        (lines.find? (isStartingFor k)).map NotifyLine.processId ∧
      getTaskThreadId (parseF lines s) k =
        (lines.find? (isStartingFor k)).map NotifyLine.threadId := by
  have h := ownerMap_fold k hk lines
    { s with
      events := []
      processIds := []
      threadIds := []
      taskProcessMap := []
      taskThreadMap := [] } (by simp [assocGet])
  have hP := congrArg Prod.fst h
  have hT := congrArg Prod.snd h
  dsimp only at hP hT
  exact ⟨hP, hT⟩

/-- Witness for the amended claim C6 at a concrete marker line and k = 1. -/
theorem claim_C6_witness :
    getTaskProcessId (parseF [c6line1]) 1 =
        ([c6line1].find? (isStartingFor 1)).map NotifyLine.processId ∧
      getTaskThreadId (parseF [c6line1]) 1 =
        ([c6line1].find? (isStartingFor 1)).map NotifyLine.threadId :=
  claim_C6_amended [c6line1] {} 1 (by decide)

end MaaLog

namespace MaaLog

open LogParser

/-- Claim C4, counterexample: a single started task whose entry is the
post-stop sentinel `MaaTaskerPostStop` is filtered out of `getTasks`, yet its
process id still appears in `getProcessIds`: the returned id "p" owns no task
of the `getTasks` output, which is empty. -/
theorem claim_C4_counterexample :
    getProcessIds (parseF [c4line]) = ["p"] ∧
      (getTasksState msOfDigits (parseF [c4line])).1 = [] :=
  ⟨by decide, rfl⟩

/-- Claim C4 (amended): `getProcessIds` (resp. `getThreadIds`) returns a
sorted list, and every returned id is the recorded process (resp. thread)
owner of at least one `Tasker.Task.Starting` marker line with a truthy
task_id; the restriction is to started task_ids, not to tasks surviving the
`getTasks` output filter. -/
theorem claim_C4_amended (lines : List NotifyLine) (s : ParserState) :
    List.Sorted strLe (getProcessIds (parseF lines s)) ∧
      List.Sorted strLe (getThreadIds (parseF lines s)) ∧
      (∀ pid ∈ getProcessIds (parseF lines s),
        ∃ l ∈ lines, l.msg = some "Tasker.Task.Starting" ∧
          (∃ d, l.details = some d ∧ ∃ tid, d.task_id = some tid ∧ tid ≠ 0) ∧
          l.processId = pid) ∧
      ∀ th ∈ getThreadIds (parseF lines s),
        ∃ l ∈ lines, l.msg = some "Tasker.Task.Starting" ∧
          (∃ d, l.details = some d ∧ ∃ tid, d.task_id = some tid ∧ tid ≠ 0) ∧
          l.threadId = th := by
  refine ⟨?_, ?_, ?_, ?_⟩
  · exact @List.sorted_insertionSort String strLe _
      ⟨fun a b => lexLeb_total a.data b.data⟩
      ⟨fun a b c => lexLeb_trans a.data b.data c.data⟩ _
  · exact @List.sorted_insertionSort String strLe _
      ⟨fun a b => lexLeb_total a.data b.data⟩
      ⟨fun a b c => lexLeb_trans a.data b.data c.data⟩ _
  · intro pid hpid
    unfold getProcessIds dedupFirst at hpid
    rw [List.mem_insertionSort] at hpid
    rcases mem_foldl_addUnique _ _ _ hpid with h1 | h1
    · exact absurd h1 (List.not_mem_nil pid)
    · obtain ⟨kv, hkv, hkv2⟩ := List.mem_map.mp h1
      rcases (ownerMap_entries lines _).1 kv hkv with h2 | h2
      · exact absurd h2 (List.not_mem_nil kv)
      · obtain ⟨l, hl, hmsg, ⟨d, hd, htid, hnz⟩, hpid2⟩ := h2
        exact ⟨l, hl, hmsg, ⟨d, hd, kv.1, htid, hnz⟩, by rw [hpid2, hkv2]⟩
  · intro th hth
    unfold getThreadIds dedupFirst at hth
    rw [List.mem_insertionSort] at hth
    rcases mem_foldl_addUnique _ _ _ hth with h1 | h1
    · exact absurd h1 (List.not_mem_nil th)
    · obtain ⟨kv, hkv, hkv2⟩ := List.mem_map.mp h1
      rcases (ownerMap_entries lines _).2 kv hkv with h2 | h2
      · exact absurd h2 (List.not_mem_nil kv)
      · obtain ⟨l, hl, hmsg, ⟨d, hd, htid, hnz⟩, hth2⟩ := h2
        exact ⟨l, hl, hmsg, ⟨d, hd, kv.1, htid, hnz⟩, by rw [hth2, hkv2]⟩

/-- Witness for the amended claim C4 at a concrete marker line. -/
theorem claim_C4_witness :
    List.Sorted strLe (getProcessIds (parseF [c4wline])) ∧
      (∃ l ∈ [c4wline], l.msg = some "Tasker.Task.Starting" ∧
        (∃ d, l.details = some d ∧ ∃ tid, d.task_id = some tid ∧ tid ≠ 0) ∧
        l.processId = c4pid) ∧
      ∃ l ∈ [c4wline], l.msg = some "Tasker.Task.Starting" ∧
        (∃ d, l.details = some d ∧ ∃ tid, d.task_id = some tid ∧ tid ≠ 0) ∧
        l.threadId = c4tid :=
  ⟨(claim_C4_amended [c4wline] {}).1,
    (claim_C4_amended [c4wline] {}).2.2.1 c4pid (List.get_mem _ _ _),
    (claim_C4_amended [c4wline] {}).2.2.2 c4tid (List.get_mem _ _ _)⟩

end MaaLog
